import Mathlib

/-!
Verification of the buildbot build-scheduling and obsolete-build-cancellation
core against its natural-language specification.

The central component, `_OldBuildrequestTracker` from
`master/buildbot/schedulers/canceller.py`, is embedded shallowly below.
Python dictionaries are modelled as association lists with
Python-dict semantics: lookup finds the binding of a key, assignment
replaces an existing binding in place (keeping its position) or appends a
fresh one, and deletion removes the binding.  Python `KeyError`/`raise`
is modelled with `Except`.
-/

namespace Buildbot

/-- Python-dict lookup (`d.get(k)` / `d[k]`) on an association list. -/
def dlookup {K V : Type} [DecidableEq K] (l : List (K × V)) (k : K) : Option V :=
  match l with
  | [] => none
  | (k', v) :: rest => if k' = k then some v else dlookup rest k

/-- Python-dict assignment `d[k] = v`: replace the binding in place, or append. -/
def dinsert {K V : Type} [DecidableEq K] (l : List (K × V)) (k : K) (v : V) : List (K × V) :=
  match l with
  | [] => [(k, v)]
  | (k', v') :: rest => if k' = k then (k, v) :: rest else (k', v') :: dinsert rest k v

/-- Python-dict deletion `del d[k]` (for a present key): remove the binding. -/
def derase {K V : Type} [DecidableEq K] (l : List (K × V)) (k : K) : List (K × V) :=
  match l with
  | [] => []
  | (k', v') :: rest => if k' = k then rest else (k', v') :: derase rest k

/-- The keys of an association list, in order (`d.keys()`). -/
def dkeys {K V : Type} (l : List (K × V)) : List K :=
  l.map Prod.fst

/-- The values of an association list, in order (`d.values()`). -/
def dvalues {K V : Type} (l : List (K × V)) : List V :=
  l.map Prod.snd

/-- An association list is a valid dict model when its keys are distinct. -/
def NodupKeys {K V : Type} (l : List (K × V)) : Prop :=
  (dkeys l).Nodup

instance {K V : Type} [DecidableEq K] (l : List (K × V)) : Decidable (NodupKeys l) := by
  unfold NodupKeys
  infer_instance

/-! ## Data model of `master/buildbot/schedulers/canceller.py`

A source stamp (and likewise a change event) carries the fields the canceller
reads: project, codebase, repository, and an optional branch.  Any further
properties only influence the opaque source-stamp filters, which are modelled
as arbitrary boolean predicates on stamps. -/
structure SourceStamp where
  project : String
  codebase : String
  repository : String
  branch : Option String
deriving DecidableEq

/-- The key identifying one line of development:
`(project, codebase, repository, branch_key)`. -/
abbrev SSTuple := String × String × String × String

/-- `_TrackedBuildRequest`: a build request id and the key tuples it matched. -/
structure TrackedBuildRequest where
  brid : Nat
  ss_tuples : List SSTuple
deriving DecidableEq

/-- `_OldBuildFilterSet`: per-builder lists of opaque source-stamp predicates. -/
structure OldBuildFilterSet where
  by_builder : List (String × List (SourceStamp → Bool))

/-- `_OldBuildFilterSet.add_filter`: append the predicate to every named builder. -/
def OldBuildFilterSet.add_filter (fs : OldBuildFilterSet) (builders : List String)
    (f : SourceStamp → Bool) : OldBuildFilterSet :=
  { by_builder :=
      builders.foldl
        (fun bb builder => dinsert bb builder (((dlookup bb builder).getD []) ++ [f]))
        fs.by_builder }

/-- `_OldBuildFilterSet.is_matched`: true iff any predicate of the builder matches. -/
def OldBuildFilterSet.is_matched (fs : OldBuildFilterSet) (builder_name : String)
    (props : SourceStamp) : Bool :=
  ((dlookup fs.by_builder builder_name).getD []).any (fun f => f props)

/-- State of `_OldBuildrequestTracker`.  The `on_cancel` callback is not stored;
instead `on_change` returns the list of build request ids it was invoked on. -/
structure OldBuildrequestTracker where
  filter : OldBuildFilterSet
  branch_key : SourceStamp → String
  br_by_id : List (Nat × TrackedBuildRequest)
  br_by_ss : List (SSTuple × List (Nat × TrackedBuildRequest))

namespace OldBuildrequestTracker

/-- `_OldBuildrequestTracker.__init__`. -/
def init (filter : OldBuildFilterSet) (branch_key : SourceStamp → String) :
    OldBuildrequestTracker :=
  { filter := filter, branch_key := branch_key, br_by_id := [], br_by_ss := [] }

/-- `_OldBuildrequestTracker.reconfig`. -/
def reconfig (t : OldBuildrequestTracker) (filter : OldBuildFilterSet)
    (branch_key : SourceStamp → String) : OldBuildrequestTracker :=
  { t with filter := filter, branch_key := branch_key }

/-- `_OldBuildrequestTracker.is_buildrequest_tracked`. -/
def is_buildrequest_tracked (t : OldBuildrequestTracker) (br_id : Nat) : Bool :=
  (dlookup t.br_by_id br_id).isSome

/-- The SourceStampKey `(ss['project'], ss['codebase'], ss['repository'],
self.branch_key(ss))` built for a stamp or change. -/
def stampKey (t : OldBuildrequestTracker) (ss : SourceStamp) : SSTuple :=
  (ss.project, ss.codebase, ss.repository, t.branch_key ss)

/-- The loop of `on_new_buildrequest` over the source stamps: stop (`return`)
at the first stamp with a `None` branch, otherwise collect the matched stamps.
`none` means the request must not be tracked because a branch was missing. -/
def collectMatched (fs : OldBuildFilterSet) (builder_name : String) :
    List SourceStamp → Option (List SourceStamp)
  | [] => some []
  | ss :: rest =>
    if ss.branch = none then none
    else
      match collectMatched fs builder_name rest with
      | none => none
      | some ms => some (if fs.is_matched builder_name ss then ss :: ms else ms)

/-- The final loop of `on_new_buildrequest`:
`br_dict = self.br_by_ss.setdefault(ss_tuple, {}); br_dict[tracked_br.brid] = tracked_br`. -/
def addToBuckets (m : List (SSTuple × List (Nat × TrackedBuildRequest)))
    (tracked_br : TrackedBuildRequest) :
    List SSTuple → List (SSTuple × List (Nat × TrackedBuildRequest))
  | [] => m
  | ss_tuple :: rest =>
    addToBuckets
      (dinsert m ss_tuple
        (dinsert ((dlookup m ss_tuple).getD []) tracked_br.brid tracked_br))
      tracked_br rest

/-- `_OldBuildrequestTracker.on_new_buildrequest`. -/
def on_new_buildrequest (t : OldBuildrequestTracker) (brid : Nat)
    (builder_name : String) (sourcestamps : List SourceStamp) :
    OldBuildrequestTracker :=
  match collectMatched t.filter builder_name sourcestamps with
  | none => t
  | some matched_ss =>
    if matched_ss.isEmpty then t
    else
      let ss_tuples := matched_ss.map (stampKey t)
      let tracked_br : TrackedBuildRequest := ⟨brid, ss_tuples⟩
      { t with
        br_by_id := dinsert t.br_by_id brid tracked_br
        br_by_ss := addToBuckets t.br_by_ss tracked_br ss_tuples }

/-- The key-index map type: `br_by_ss`. -/
abbrev BrBySS := List (SSTuple × List (Nat × TrackedBuildRequest))

/-- Write the mutated bucket back, dropping it when it became empty: the
effect of `del br_dict[brid]; if not br_dict: del self.br_by_ss[ss_tuple]`. -/
def bucketRemove (m : BrBySS) (ss_tuple : SSTuple)
    (br_dict' : List (Nat × TrackedBuildRequest)) : BrBySS :=
  if br_dict'.isEmpty then derase m ss_tuple else dinsert m ss_tuple br_dict'

/-- The loop of `on_complete_buildrequest` over `tracked_br.ss_tuples`: remove
`brid` from each tuple's bucket, deleting a bucket that becomes empty.  A
missing bucket raises `KeyError` (the loud-failure path), and so does deleting
an id that is not in the bucket (`del br_dict[...]` on an absent key). -/
def removeFromBuckets (m : BrBySS) (brid : Nat) : List SSTuple → Except String BrBySS
  | [] => .ok m
  | ss_tuple :: rest =>
    match dlookup m ss_tuple with
    | none => .error "Could not find finished builds by tuple"
    | some br_dict =>
      if (dlookup br_dict brid).isSome then
        removeFromBuckets (bucketRemove m ss_tuple (derase br_dict brid)) brid rest
      else .error "KeyError: brid not in bucket"

/-- `_OldBuildrequestTracker.on_complete_buildrequest`. -/
def on_complete_buildrequest (t : OldBuildrequestTracker) (brid : Nat) :
    Except String OldBuildrequestTracker :=
  match dlookup t.br_by_id brid with
  | none => .ok t
  | some tracked_br =>
    let t_1 := { t with br_by_id := derase t.br_by_id brid }
    match removeFromBuckets t_1.br_by_ss brid tracked_br.ss_tuples with
    | .error e => .error e
    | .ok m => .ok { t_1 with br_by_ss := m }

/-- The inner loop of `on_change` over `tracked_br.ss_tuples`: remove the id
from every bucket other than the changed tuple's own (already popped) bucket. -/
def removeFromOtherBuckets (m : BrBySS) (brid : Nat) (ss_tuple : SSTuple) :
    List SSTuple → Except String BrBySS
  | [] => .ok m
  | i_ss_tuple :: rest =>
    if i_ss_tuple = ss_tuple then removeFromOtherBuckets m brid ss_tuple rest
    else
      match dlookup m i_ss_tuple with
      | none => .error "Could not find running builds by tuple"
      | some other_br_dict =>
        if (dlookup other_br_dict brid).isSome then
          removeFromOtherBuckets (bucketRemove m i_ss_tuple (derase other_br_dict brid))
            brid ss_tuple rest
        else .error "KeyError: brid not in bucket"

/-- The outer loop of `on_change` over the popped bucket's values.  Each
iteration deletes the id from `br_by_id` (a `KeyError` if absent), skips the
bucket cleanup for single-codebase requests, and otherwise removes the id
from the buckets of all its other tuples. -/
def processCancelled (ss_tuple : SSTuple) :
    OldBuildrequestTracker → List TrackedBuildRequest →
    Except String OldBuildrequestTracker
  | t, [] => .ok t
  | t, tracked_br :: rest =>
    if (dlookup t.br_by_id tracked_br.brid).isSome then
      if tracked_br.ss_tuples.length = 1 then
        processCancelled ss_tuple
          { t with br_by_id := derase t.br_by_id tracked_br.brid } rest
      else
        match removeFromOtherBuckets t.br_by_ss tracked_br.brid ss_tuple
            tracked_br.ss_tuples with
        | .error e => .error e
        | .ok m =>
          processCancelled ss_tuple
            { t with br_by_id := derase t.br_by_id tracked_br.brid, br_by_ss := m } rest
    else .error "KeyError: brid not in br_by_id"

/-- `_OldBuildrequestTracker.on_change`.  Returns the new tracker state and the
list of build request ids passed to the cancellation callback, in order. -/
def on_change (t : OldBuildrequestTracker) (change : SourceStamp) :
    Except String (OldBuildrequestTracker × List Nat) :=
  let ss_tuple := stampKey t change
  match dlookup t.br_by_ss ss_tuple with
  | none => .ok (t, [])
  | some br_dict =>
    let t_1 := { t with br_by_ss := derase t.br_by_ss ss_tuple }
    match processCancelled ss_tuple t_1 (dvalues br_dict) with
    | .error e => .error e
    | .ok t_2 => .ok (t_2, dkeys br_dict)

/-- The tracked request recorded for `brid` in the bucket of key `K`. -/
def entryLookup (t : OldBuildrequestTracker) (K : SSTuple) (brid : Nat) :
    Option TrackedBuildRequest :=
  (dlookup t.br_by_ss K).bind (fun b => dlookup b brid)

/-- Well-formedness of the two interdependent indices.  All quantifiers range
over the stored entries, so the predicate is decidable on concrete states. -/
def WF (t : OldBuildrequestTracker) : Prop :=
  NodupKeys t.br_by_id ∧ NodupKeys t.br_by_ss ∧
  (∀ e ∈ t.br_by_id,
    e.2.brid = e.1 ∧ e.2.ss_tuples ≠ [] ∧
    ∀ K ∈ e.2.ss_tuples, entryLookup t K e.1 = some e.2) ∧
  (∀ b ∈ t.br_by_ss,
    b.2 ≠ [] ∧ NodupKeys b.2 ∧
    ∀ e ∈ b.2, dlookup t.br_by_id e.1 = some e.2 ∧ b.1 ∈ e.2.ss_tuples)

instance (t : OldBuildrequestTracker) : Decidable (WF t) := by
  unfold WF
  infer_instance

/-- Lookup-level restatement of `WF`, convenient inside proofs. -/
structure WFl (t : OldBuildrequestTracker) : Prop where
  ndid : NodupKeys t.br_by_id
  ndss : NodupKeys t.br_by_ss
  bucket_nd : ∀ K b, dlookup t.br_by_ss K = some b → NodupKeys b
  bucket_ne : ∀ K b, dlookup t.br_by_ss K = some b → b ≠ []
  id_brid : ∀ brid tb, dlookup t.br_by_id brid = some tb → tb.brid = brid
  id_tuples_ne : ∀ brid tb, dlookup t.br_by_id brid = some tb → tb.ss_tuples ≠ []
  id_in_buckets : ∀ brid tb, dlookup t.br_by_id brid = some tb →
    ∀ K ∈ tb.ss_tuples, entryLookup t K brid = some tb
  bucket_in_id : ∀ K b, dlookup t.br_by_ss K = some b →
    ∀ brid tb, dlookup b brid = some tb →
    dlookup t.br_by_id brid = some tb ∧ K ∈ tb.ss_tuples

/-- Invariant I1 from the spec: a request is in the id-index iff its id
appears in the bucket of every one of its recorded SourceStampKeys and in no
other bucket.  Stated over the stored entries so it is decidable. -/
def InvariantI1 (t : OldBuildrequestTracker) : Prop :=
  (∀ e ∈ t.br_by_id,
    (∀ K ∈ e.2.ss_tuples, (entryLookup t K e.1).isSome) ∧
    (∀ b ∈ t.br_by_ss, (dlookup b.2 e.1).isSome → b.1 ∈ e.2.ss_tuples)) ∧
  (∀ b ∈ t.br_by_ss, ∀ e ∈ b.2, (dlookup t.br_by_id e.1).isSome)

/-- Invariant I2 from the spec: no key-index bucket is ever empty. -/
def InvariantI2 (t : OldBuildrequestTracker) : Prop :=
  ∀ b ∈ t.br_by_ss, b.2 ≠ []

instance (t : OldBuildrequestTracker) : Decidable (InvariantI1 t) := by
  unfold InvariantI1
  infer_instance

instance (t : OldBuildrequestTracker) : Decidable (InvariantI2 t) := by
  unfold InvariantI2
  infer_instance

/-! ### Characterizing bucket removal -/
/-- All buckets of a key-index map have distinct entry keys. -/
def BucketsND (m : BrBySS) : Prop :=
  ∀ K b, dlookup m K = some b → NodupKeys b

/-- Invariant threaded through the `on_change` cancellation loop: the state is
well-formed except that the changed tuple's bucket has been popped and the
pending requests in `l` are still present in the id-index and in the buckets
of all their other keys. -/
structure PCInv (K : SSTuple) (t : OldBuildrequestTracker)
    (l : List TrackedBuildRequest) : Prop where
  ndid : NodupKeys t.br_by_id
  ndss : NodupKeys t.br_by_ss
  bucket_nd : BucketsND t.br_by_ss
  bucket_ne : ∀ K' b, dlookup t.br_by_ss K' = some b → b ≠ []
  hK : dlookup t.br_by_ss K = none
  pend_id : ∀ tb ∈ l, dlookup t.br_by_id tb.brid = some tb
  pend_K : ∀ tb ∈ l, K ∈ tb.ss_tuples
  pend_nd : (l.map TrackedBuildRequest.brid).Nodup
  id_brid : ∀ x tbx, dlookup t.br_by_id x = some tbx → tbx.brid = x
  id_tuples_ne : ∀ x tbx, dlookup t.br_by_id x = some tbx → tbx.ss_tuples ≠ []
  id_pending : ∀ x tbx, dlookup t.br_by_id x = some tbx → K ∈ tbx.ss_tuples → tbx ∈ l
  id_in_buckets : ∀ x tbx, dlookup t.br_by_id x = some tbx →
      ∀ K' ∈ tbx.ss_tuples, K' ≠ K → entryLookup t K' x = some tbx
  bucket_in_id : ∀ K' b, dlookup t.br_by_ss K' = some b →
      ∀ x tbx, dlookup b x = some tbx →
      dlookup t.br_by_id x = some tbx ∧ K' ∈ tbx.ss_tuples

/-- The three tracker events.  Per the concurrency model (spec §5) they are
dispatched one at a time from a single queue. -/
inductive TrackerOp where
  | new (brid : Nat) (builder_name : String) (sourcestamps : List SourceStamp)
  | complete (brid : Nat)
  | change (change : SourceStamp)

/-- Run a sequence of events against the tracker, one at a time.  A `new`
event whose id is already tracked (outside the claimed dispatch discipline)
and any loudly-failing operation stop the run with `none`. -/
def runOps (t : OldBuildrequestTracker) : List TrackerOp → Option OldBuildrequestTracker
  | [] => some t
  | op :: rest =>
    match op with
    | .new brid builder_name sourcestamps =>
      if (dlookup t.br_by_id brid).isSome then none
      else runOps (on_new_buildrequest t brid builder_name sourcestamps) rest
    | .complete brid =>
      match on_complete_buildrequest t brid with
      | .error _ => none
      | .ok t2 => runOps t2 rest
    | .change c =>
      match on_change t c with
      | .error _ => none
      | .ok (t2, _) => runOps t2 rest

/-- One iteration of the reconfiguration loop over the currently incomplete
build requests `(buildrequestid, builder name, sourcestamps)`: requests that
are already tracked are skipped, the rest are fed to `on_new_buildrequest`. -/
def reconfigStep (t' : OldBuildrequestTracker)
    (breq : Nat × String × List SourceStamp) : OldBuildrequestTracker :=
  if is_buildrequest_tracked t' breq.1 then t'
  else on_new_buildrequest t' breq.1 breq.2.1 breq.2.2

/-- The tracker-visible effect of `OldBuildCanceller.reconfigService`: install
the new filter set and branch-key function (`reconfig`), then run every
currently incomplete build request that is not already tracked through
`on_new_buildrequest`.  The deferral and replay of completion notifications
arriving during the reconfiguration, and the creation of a fresh tracker on
first configuration, are outside this state transformation. -/
def reconfigService (t : OldBuildrequestTracker) (fs : OldBuildFilterSet)
    (bk : SourceStamp → String)
    (incomplete : List (Nat × String × List SourceStamp)) : OldBuildrequestTracker :=
  incomplete.foldl reconfigStep (reconfig t fs bk)

end OldBuildrequestTracker

open OldBuildrequestTracker

/-! ### Concrete states used by the claim witnesses -/
/-- A filter set accepting every stamp on builder `builder1`. -/
def exFilterSet : OldBuildFilterSet := ⟨[("builder1", [fun _ => true])]⟩

/-- The identity branch-key strategy (raw branch string). -/
def exBranchKey : SourceStamp → String := fun ss => ss.branch.getD ""

def exStamp1 : SourceStamp := ⟨"p", "c1", "r", some "br"⟩

def exStamp2 : SourceStamp := ⟨"p", "c2", "r", some "br"⟩

def exKey1 : SSTuple := ("p", "c1", "r", "br")

def exKey2 : SSTuple := ("p", "c2", "r", "br")

def exTB1 : TrackedBuildRequest := ⟨1, [exKey1, exKey2]⟩

def exTB2 : TrackedBuildRequest := ⟨2, [exKey1]⟩

/-- A well-formed tracker holding a two-codebase request 1 and a
single-codebase request 2. -/
def exTracker : OldBuildrequestTracker :=
  { filter := exFilterSet
    branch_key := exBranchKey
    br_by_id := [(1, exTB1), (2, exTB2)]
    br_by_ss := [(exKey1, [(1, exTB1), (2, exTB2)]), (exKey2, [(1, exTB1)])] }

/-- `exTracker` after a change on `exKey1` cancelled both requests. -/
def exTrackerEmpty : OldBuildrequestTracker :=
  { filter := exFilterSet
    branch_key := exBranchKey
    br_by_id := []
    br_by_ss := [] }

/-- A corrupt tracker: request 1 is tracked under `exKey1` and also records
`exKey2`, but `exKey2` has no bucket. -/
def exCorrupt : OldBuildrequestTracker :=
  { filter := exFilterSet
    branch_key := exBranchKey
    br_by_id := [(1, exTB1)]
    br_by_ss := [(exKey1, [(1, exTB1)])] }

def exOps : List TrackerOp :=
  [.new 1 "builder1" [exStamp1, exStamp2],
   .new 2 "builder1" [exStamp1],
   .complete 1,
   .new 3 "builder1" [exStamp2],
   .change exStamp1]

def exFinal : OldBuildrequestTracker :=
  { filter := exFilterSet
    branch_key := exBranchKey
    br_by_id := [(3, ⟨3, [exKey2]⟩)]
    br_by_ss := [(exKey2, [(3, ⟨3, [exKey2]⟩)])] }

def exStampNull : SourceStamp := ⟨"p", "c3", "r", none⟩

/-! ## `OldBuildCanceller._default_branch_key`

Branch strings are modelled as character lists.  Python's `\d` is modelled as
an ASCII digit (`Char.isDigit`). -/
/-- The literal `refs/changes/` as a character list. -/
def refsChangesLit : List Char :=
  ['r', 'e', 'f', 's', '/', 'c', 'h', 'a', 'n', 'g', 'e', 's', '/']

/-- Model of `branch.startswith('refs/changes/')` followed by
`re.match(r'refs/changes/(\d+)/(\d+)/\d+', branch)`: `re.match` anchors only
at the start, so the pattern needs to match a prefix of the string, with
nothing required after the final digit run.  Greedy `(\d+)` before `/` is the
maximal digit run (backtracking cannot help, since giving a digit back would
put a digit where `/` is required).  Returns the two captured groups. -/
def matchChangesPattern (s : List Char) : Option (List Char × List Char) :=
  if refsChangesLit.isPrefixOf s then
    if ((s.drop refsChangesLit.length).takeWhile Char.isDigit).isEmpty then none
    else
      match (s.drop refsChangesLit.length).dropWhile Char.isDigit with
      | '/' :: r2 =>
        if (r2.takeWhile Char.isDigit).isEmpty then none
        else
          match r2.dropWhile Char.isDigit with
          | '/' :: r4 =>
            if (r4.takeWhile Char.isDigit).isEmpty then none
            else
              some ((s.drop refsChangesLit.length).takeWhile Char.isDigit,
                r2.takeWhile Char.isDigit)
          | _ => none
      | _ => none
  else none

/-- `OldBuildCanceller._default_branch_key` applied to the branch string. -/
def default_branch_key (branch : List Char) : List Char :=
  match matchChangesPattern branch with
  | some (x, y) => refsChangesLit ++ x ++ '/' :: y
  | none => branch

/-- A branch string exactly of the claimed form `refs/changes/<X>/<Y>/<rev>`
with `X`, `Y`, `rev` nonempty digit strings and nothing after `<rev>`. -/
def IsFullChangesForm (s : List Char) : Prop :=
  ∃ x y r : List Char, x ≠ [] ∧ y ≠ [] ∧ r ≠ [] ∧
    (∀ c ∈ x, c.isDigit = true) ∧ (∀ c ∈ y, c.isDigit = true) ∧
    (∀ c ∈ r, c.isDigit = true) ∧
    s = refsChangesLit ++ x ++ '/' :: (y ++ '/' :: r)

/-- A branch string whose PREFIX matches the pattern: after
`refs/changes/<X>/<Y>/` there is at least one digit, and anything may follow. -/
def HasChangesPrefixForm (s : List Char) : Prop :=
  ∃ (x y : List Char) (c : Char) (rest : List Char), x ≠ [] ∧ y ≠ [] ∧
    (∀ a ∈ x, a.isDigit = true) ∧ (∀ a ∈ y, a.isDigit = true) ∧ c.isDigit = true ∧
    s = refsChangesLit ++ x ++ '/' :: (y ++ '/' :: (c :: rest))

def exGerritOdd : List Char := "refs/changes/1/2/3x".toList

/-! ## `OldBuildCanceller.reconfigService` -/

/-! ## PeriodicScheduler

Modelled from the spec: the `buildbot.schedulers.timed.Periodic`
implementation is not among the repository's files — only its unit tests
(`test_timed_Periodic.py`) are — so the tick/checkpoint behaviour is
modelled from spec §4.4. -/
/-- Modelled from the spec: when the timer fires at time `t`, the checkpoint
is set to `t` and the build-start call is invoked; when that call settles
after `d` seconds (`d = 0` covers an immediate error, which is logged and
non-fatal) the next timer is scheduled for `checkpoint + interval`, firing
immediately at the settlement instant if that point has already passed.
`periodicTicks interval start durations` is the resulting list of recorded
checkpoints, one per build-start attempt. -/
def periodicTicks (interval : Nat) (start : Nat) : List Nat → List Nat
  | [] => [start]
  | d :: ds => start :: periodicTicks interval (start + max interval d) ds

/-! ## CalendarScheduler

Modelled from the spec: `buildbot.schedulers.timed.NightlyBase` is not among
the repository's files — only its unit tests (`test_timed_NightlyBase.py`)
are — so the next-trigger computation is modelled from spec §4.3. -/
/-- A local calendar timestamp at one-minute resolution (trigger instants are
whole minutes). -/
structure DateTime where
  year : Nat
  month : Nat
  day : Nat
  hour : Nat
  minute : Nat
deriving DecidableEq

def isLeapYear (y : Nat) : Bool :=
  decide ((y % 4 = 0 ∧ y % 100 ≠ 0) ∨ y % 400 = 0)

def daysInMonth (y m : Nat) : Nat :=
  if m = 2 then (if isLeapYear y then 29 else 28)
  else if m = 4 ∨ m = 6 ∨ m = 9 ∨ m = 11 then 30
  else 31

/-- Advance one minute, carrying minute → hour → day → month → year; all
lower units reset when a higher unit rolls over (spec §4.3). -/
def addMinute (t : DateTime) : DateTime :=
  if t.minute + 1 < 60 then { t with minute := t.minute + 1 }
  else if t.hour + 1 < 24 then { t with hour := t.hour + 1, minute := 0 }
  else if t.day + 1 ≤ daysInMonth t.year t.month then
    { t with day := t.day + 1, hour := 0, minute := 0 }
  else if t.month + 1 ≤ 12 then
    { t with month := t.month + 1, day := 1, hour := 0, minute := 0 }
  else { year := t.year + 1, month := 1, day := 1, hour := 0, minute := 0 }

def daysInYear (y : Nat) : Nat := if isLeapYear y then 366 else 365

/-- Days from 2001-01-01 (a Monday) to the start of year `y` (`y ≥ 2001`). -/
def daysBeforeYear (y : Nat) : Nat :=
  ((List.range (y - 2001)).map (fun i => daysInYear (2001 + i))).sum

def daysBeforeMonth (y m : Nat) : Nat :=
  ((List.range (m - 1)).map (fun i => daysInMonth y (i + 1))).sum

/-- Weekday with 0 = Monday (the buildbot `dayOfWeek` convention). -/
def weekdayOf (t : DateTime) : Nat :=
  (daysBeforeYear t.year + daysBeforeMonth t.year t.month + (t.day - 1)) % 7

/-- The calendar dimensions; an unset dimension is a wildcard (spec §3). -/
structure CalendarSpec where
  minute : Option (List Nat)
  hour : Option (List Nat)
  dayOfMonth : Option (List Nat)
  dayOfWeek : Option (List Nat)
  month : Option (List Nat)

/-- Minute dimension: if unset, default to top-of-the-hour (hourly cadence). -/
def minuteMatches (cs : CalendarSpec) (t : DateTime) : Bool :=
  match cs.minute with
  | none => t.minute == 0
  | some ms => ms.contains t.minute

def hourMatches (cs : CalendarSpec) (t : DateTime) : Bool :=
  match cs.hour with
  | none => true
  | some hs => hs.contains t.hour

/-- A day qualifies if it satisfies dayOfMonth OR dayOfWeek when both are
set; if only one is set, only that one constrains; if neither, every day. -/
def dayMatches (cs : CalendarSpec) (t : DateTime) : Bool :=
  match cs.dayOfMonth, cs.dayOfWeek with
  | none, none => true
  | some dm, none => dm.contains t.day
  | none, some dw => dw.contains (weekdayOf t)
  | some dm, some dw => dm.contains t.day || dw.contains (weekdayOf t)

def monthMatches (cs : CalendarSpec) (t : DateTime) : Bool :=
  match cs.month with
  | none => true
  | some ms => ms.contains t.month

def specMatches (cs : CalendarSpec) (t : DateTime) : Bool :=
  minuteMatches cs t && hourMatches cs t && dayMatches cs t && monthMatches cs t

/-- Scan forward one minute at a time until the spec matches; the fuel bounds
the scan (about eleven years, far beyond any gap a satisfiable spec needs).
Written with a bare `Nat.rec` so that evaluating a long scan reduces
tail-recursively. -/
def nextMatch (cs : CalendarSpec) (fuel : Nat) : DateTime → Option DateTime :=
  Nat.rec (motive := fun _ => DateTime → Option DateTime)
    (fun _ => none)
    (fun _ ih t =>
      if specMatches cs (addMinute t) then some (addMinute t) else ih (addMinute t))
    fuel

/-- Modelled from the spec: `NightlyBase.getNextBuildTime` — the first
instant strictly after `last` (scanning forward at minute granularity) that
matches every dimension of the calendar spec. -/
def getNextBuildTime (cs : CalendarSpec) (last : DateTime) : Option DateTime :=
  nextMatch cs 6000000 last

/-- The same scan as `nextMatch`, but when the fuel runs out it reports the
reached state (`Except.ok`); a found match is an early exit (`Except.error`).
Used to evaluate a long scan in bounded segments. -/
def chunkScan (cs : CalendarSpec) : Nat → DateTime → Except DateTime DateTime :=
  Nat.rec (motive := fun _ => DateTime → Except DateTime DateTime)
    (fun t => Except.ok t)
    (fun _ ih t =>
      if specMatches cs (addMinute t) then Except.error (addMinute t) else ih (addMinute t))

/-! ## DependentBuildCoordinator (the trigger step)

Modelled from the spec: `buildbot.steps.trigger.Trigger` is not among the
repository's files — only its unit tests (`test_trigger.py`) are — so the
wait-for-finish aggregation is modelled from spec §4.5: the step blocks
until every target settles (the settled outcomes are therefore data here),
publishes one link per target, and aggregates worst-of over the important
targets only. -/
inductive BuildResult where
  | success
  | warnings
  | failure
  | exception
  | cancelled
deriving DecidableEq

def severity : BuildResult → Nat
  | .success => 0
  | .warnings => 1
  | .failure => 2
  | .exception => 3
  | .cancelled => 4

def worstOf (a b : BuildResult) : BuildResult :=
  if severity a < severity b then b else a

/-- A triggered target with its settled outcome. -/
structure TriggerTarget where
  name : String
  important : Bool
  result : BuildResult

/-- Modelled from the spec: aggregate result = worst-of across the settled
outcomes of the important targets only. -/
def aggregateResult (targets : List TriggerTarget) : BuildResult :=
  (targets.filter (fun tg => tg.important)).foldl
    (fun acc tg => worstOf acc tg.result) .success

/-- Modelled from the spec: one result link is published per target,
unimportant targets included. -/
def publishedLinks (targets : List TriggerTarget) : List String :=
  targets.map (fun tg => tg.name)

section DictLemmas

variable {K V : Type} [DecidableEq K]

theorem dlookup_dinsert_self (l : List (K × V)) (k : K) (v : V) :
    dlookup (dinsert l k v) k = some v := by
  induction l with
  | nil => simp [dinsert, dlookup]
  | cons e rest ih =>
    obtain ⟨k', v'⟩ := e
    by_cases h : k' = k <;> simp [dinsert, dlookup, h, ih]

theorem dlookup_dinsert_ne (l : List (K × V)) (k : K) (v : V) (k₀ : K) (h : k ≠ k₀) :
    dlookup (dinsert l k v) k₀ = dlookup l k₀ := by
  induction l with
  | nil => simp [dinsert, dlookup, h]
  | cons e rest ih =>
    obtain ⟨k', v'⟩ := e
    by_cases hk : k' = k
    · subst hk
      simp [dinsert, dlookup, h]
    · simp only [dinsert, if_neg hk]
      by_cases hk0 : k' = k₀ <;> simp [dlookup, hk0, ih]

theorem dlookup_derase_ne (l : List (K × V)) (k : K) (k₀ : K) (h : k ≠ k₀) :
    dlookup (derase l k) k₀ = dlookup l k₀ := by
  induction l with
  | nil => simp [derase]
  | cons e rest ih =>
    obtain ⟨k', v'⟩ := e
    by_cases hk : k' = k
    · subst hk
      simp [derase, dlookup, h]
    · simp only [derase, if_neg hk]
      by_cases hk0 : k' = k₀ <;> simp [dlookup, hk0, ih]

theorem mem_dkeys_of_dlookup {l : List (K × V)} {k : K} {v : V}
    (h : dlookup l k = some v) : k ∈ dkeys l := by
  induction l with
  | nil => simp [dlookup] at h
  | cons e rest ih =>
    obtain ⟨k', v'⟩ := e
    by_cases hk : k' = k
    · subst hk
      simp [dkeys]
    · simp only [dlookup, if_neg hk] at h
      simpa [dkeys] using Or.inr (by simpa [dkeys] using ih h)

theorem dlookup_eq_none_of_not_mem_dkeys {l : List (K × V)} {k : K}
    (h : k ∉ dkeys l) : dlookup l k = none := by
  induction l with
  | nil => rfl
  | cons e rest ih =>
    obtain ⟨k', v'⟩ := e
    rw [dkeys, List.map_cons, List.mem_cons, not_or] at h
    have h1 : k' ≠ k := fun he => h.1 he.symm
    simp only [dlookup, if_neg h1]
    exact ih h.2

theorem exists_dlookup_of_mem_dkeys {l : List (K × V)} {k : K} (h : k ∈ dkeys l) :
    ∃ v, dlookup l k = some v := by
  induction l with
  | nil => simp [dkeys] at h
  | cons e rest ih =>
    obtain ⟨k', v'⟩ := e
    by_cases hk : k' = k
    · exact ⟨v', by simp [dlookup, hk]⟩
    · rw [dkeys, List.map_cons, List.mem_cons] at h
      rcases h with h | h
      · exact absurd h.symm hk
      · obtain ⟨v, hv⟩ := ih h
        exact ⟨v, by simp [dlookup, hk, hv]⟩

theorem dlookup_isSome_iff_mem_dkeys {l : List (K × V)} {k : K} :
    (dlookup l k).isSome = true ↔ k ∈ dkeys l := by
  constructor
  · intro h
    obtain ⟨v, hv⟩ := Option.isSome_iff_exists.mp h
    exact mem_dkeys_of_dlookup hv
  · intro h
    obtain ⟨v, hv⟩ := exists_dlookup_of_mem_dkeys h
    simp [hv]

theorem mem_of_dlookup {l : List (K × V)} {k : K} {v : V}
    (h : dlookup l k = some v) : (k, v) ∈ l := by
  induction l with
  | nil => simp [dlookup] at h
  | cons e rest ih =>
    obtain ⟨k', v'⟩ := e
    by_cases hk : k' = k
    · subst hk
      have hv : v' = v := by simpa [dlookup] using h
      subst hv
      exact List.mem_cons_self _ _
    · simp only [dlookup, if_neg hk] at h
      exact List.mem_cons_of_mem _ (ih h)

theorem dlookup_of_mem {l : List (K × V)} (hnd : NodupKeys l) {k : K} {v : V}
    (h : (k, v) ∈ l) : dlookup l k = some v := by
  induction l with
  | nil => simp at h
  | cons e rest ih =>
    obtain ⟨k', v'⟩ := e
    rw [NodupKeys, dkeys, List.map_cons, List.nodup_cons] at hnd
    rcases List.mem_cons.mp h with h1 | h2
    · obtain ⟨hk, hv⟩ := Prod.mk.inj h1
      subst hk
      subst hv
      simp [dlookup]
    · have hk : k' ≠ k := by
        intro hkk
        subst hkk
        exact hnd.1 (List.mem_map.mpr ⟨(k', v), h2, rfl⟩)
      simp only [dlookup, if_neg hk]
      exact ih hnd.2 h2

/-- The keys after a dict assignment: unchanged if the key was bound, else appended. -/
theorem dkeys_dinsert (l : List (K × V)) (k : K) (v : V) :
    dkeys (dinsert l k v) = if k ∈ dkeys l then dkeys l else dkeys l ++ [k] := by
  induction l with
  | nil => simp [dinsert, dkeys]
  | cons e rest ih =>
    obtain ⟨k', v'⟩ := e
    by_cases hk : k' = k
    · subst hk
      simp [dinsert, dkeys]
    · have hk' : ¬(k = k') := fun h => hk h.symm
      have hstep : dinsert ((k', v') :: rest) k v = (k', v') :: dinsert rest k v := by
        simp [dinsert, hk]
      rw [hstep]
      have hcons : dkeys ((k', v') :: dinsert rest k v) = k' :: dkeys (dinsert rest k v) := rfl
      have hcons2 : dkeys ((k', v') :: rest) = k' :: dkeys rest := rfl
      rw [hcons, hcons2, ih]
      by_cases hmem : k ∈ dkeys rest
      · simp [List.mem_cons, hmem, hk']
      · simp [List.mem_cons, hmem, hk']

theorem nodupKeys_dinsert {l : List (K × V)} (hnd : NodupKeys l) (k : K) (v : V) :
    NodupKeys (dinsert l k v) := by
  rw [NodupKeys, dkeys_dinsert]
  by_cases hmem : k ∈ dkeys l
  · rw [if_pos hmem]
    exact hnd
  · rw [if_neg hmem]
    have hnd' : (dkeys l).Nodup := hnd
    show (dkeys l ++ [k]).Nodup
    rw [List.nodup_append]
    refine ⟨hnd', List.nodup_singleton _, ?_⟩
    intro a ha hb
    rw [List.mem_singleton] at hb
    exact hmem (hb ▸ ha)

theorem derase_sublist (l : List (K × V)) (k : K) : (derase l k).Sublist l := by
  induction l with
  | nil => simp [derase]
  | cons e rest ih =>
    obtain ⟨k', v'⟩ := e
    by_cases hk : k' = k
    · subst hk
      simp only [derase, if_pos rfl]
      exact List.sublist_cons_self _ _
    · simpa [derase, hk] using List.Sublist.cons₂ (k', v') ih

theorem nodupKeys_derase {l : List (K × V)} (hnd : NodupKeys l) (k : K) :
    NodupKeys (derase l k) := by
  exact List.Nodup.sublist (List.Sublist.map Prod.fst (derase_sublist l k)) hnd

theorem dlookup_derase_self {l : List (K × V)} (hnd : NodupKeys l) (k : K) :
    dlookup (derase l k) k = none := by
  induction l with
  | nil => simp [derase, dlookup]
  | cons e rest ih =>
    obtain ⟨k', v'⟩ := e
    rw [NodupKeys, dkeys, List.map_cons, List.nodup_cons] at hnd
    by_cases hk : k' = k
    · subst hk
      simp only [derase, if_pos rfl]
      exact dlookup_eq_none_of_not_mem_dkeys (by simpa [dkeys] using hnd.1)
    · simp only [derase, if_neg hk, dlookup]
      exact ih hnd.2

theorem dinsert_idem (l : List (K × V)) (k : K) (v : V) :
    dinsert (dinsert l k v) k v = dinsert l k v := by
  induction l with
  | nil => simp [dinsert]
  | cons e rest ih =>
    obtain ⟨k', v'⟩ := e
    by_cases hk : k' = k <;> simp [dinsert, hk, ih]

/-- Values of a bucket correspond to lookups, given distinct keys. -/
theorem mem_dvalues_of_dlookup {l : List (K × V)} {k : K} {v : V}
    (h : dlookup l k = some v) : v ∈ dvalues l :=
  List.mem_map.mpr ⟨(k, v), mem_of_dlookup h, rfl⟩

end DictLemmas

namespace OldBuildrequestTracker

theorem WF_iff_WFl (t : OldBuildrequestTracker) : WF t ↔ WFl t := by
  constructor
  · rintro ⟨h1, h2, h3, h4⟩
    refine ⟨h1, h2, ?_, ?_, ?_, ?_, ?_, ?_⟩
    · intro K b hb
      exact (h4 _ (mem_of_dlookup hb)).2.1
    · intro K b hb
      exact (h4 _ (mem_of_dlookup hb)).1
    · intro brid tb hid
      exact (h3 _ (mem_of_dlookup hid)).1
    · intro brid tb hid
      exact (h3 _ (mem_of_dlookup hid)).2.1
    · intro brid tb hid
      exact (h3 _ (mem_of_dlookup hid)).2.2
    · intro K b hb brid tb he
      exact (h4 _ (mem_of_dlookup hb)).2.2 _ (mem_of_dlookup he)
  · rintro ⟨ndid, ndss, bnd, bne, ibrid, itne, iib, bii⟩
    refine ⟨ndid, ndss, ?_, ?_⟩
    · intro e he
      have hid := dlookup_of_mem ndid he
      exact ⟨ibrid _ _ hid, itne _ _ hid, iib _ _ hid⟩
    · intro b hb
      have hss := dlookup_of_mem ndss hb
      refine ⟨bne _ _ hss, bnd _ _ hss, ?_⟩
      intro e he
      exact bii _ _ hss _ _ (dlookup_of_mem (bnd _ _ hss) he)

theorem invariants_of_WF {t : OldBuildrequestTracker} (h : WF t) :
    InvariantI1 t ∧ InvariantI2 t := by
  have hl := (WF_iff_WFl t).mp h
  obtain ⟨h1, h2, h3, h4⟩ := h
  refine ⟨⟨?_, ?_⟩, ?_⟩
  · intro e he
    constructor
    · intro K hK
      rw [(h3 e he).2.2 K hK]
      rfl
    · intro b hb hsome
      obtain ⟨tb, htb⟩ := Option.isSome_iff_exists.mp hsome
      have hid := dlookup_of_mem hl.ndid he
      obtain ⟨hid', hK⟩ := hl.bucket_in_id _ _ (dlookup_of_mem hl.ndss hb) _ _ htb
      rw [hid] at hid'
      cases hid'
      exact hK
  · intro b hb e he
    rw [((h4 b hb).2.2 e he).1]
    rfl
  · intro b hb
    exact (h4 b hb).1

theorem WF_init (filter : OldBuildFilterSet) (branch_key : SourceStamp → String) :
    WF (OldBuildrequestTracker.init filter branch_key) := by
  refine ⟨?_, ?_, ?_, ?_⟩ <;> simp [OldBuildrequestTracker.init, NodupKeys, dkeys]

/-! ### Characterizing `on_new_buildrequest` -/
theorem collectMatched_eq (fs : OldBuildFilterSet) (builder : String)
    (stamps : List SourceStamp) :
    collectMatched fs builder stamps =
      if stamps.any (fun ss => ss.branch.isNone) then none
      else some (stamps.filter (fun ss => fs.is_matched builder ss)) := by
  induction stamps with
  | nil => simp [collectMatched]
  | cons ss rest ih =>
    by_cases hb : ss.branch = none
    · simp [collectMatched, hb, ih]
    · by_cases hany : rest.any (fun s => s.branch.isNone)
      · simp [collectMatched, hb, hany, ih, Option.isNone_iff_eq_none]
      · by_cases hm : fs.is_matched builder ss <;>
          simp [collectMatched, hb, hany, ih, Option.isNone_iff_eq_none, hm]

theorem on_new_eq_of_none {t : OldBuildrequestTracker} {brid builder stamps}
    (h : collectMatched t.filter builder stamps = none) :
    on_new_buildrequest t brid builder stamps = t := by
  unfold on_new_buildrequest
  rw [h]

theorem on_new_eq_of_empty {t : OldBuildrequestTracker} {brid builder stamps}
    (h : collectMatched t.filter builder stamps = some []) :
    on_new_buildrequest t brid builder stamps = t := by
  unfold on_new_buildrequest
  rw [h]
  simp

theorem on_new_eq_of_matched {t : OldBuildrequestTracker} {brid builder stamps}
    {ms : List SourceStamp} (h : collectMatched t.filter builder stamps = some ms)
    (hne : ms ≠ []) :
    on_new_buildrequest t brid builder stamps =
      { t with
        br_by_id := dinsert t.br_by_id brid ⟨brid, ms.map (stampKey t)⟩
        br_by_ss := addToBuckets t.br_by_ss ⟨brid, ms.map (stampKey t)⟩
          (ms.map (stampKey t)) } := by
  unfold on_new_buildrequest
  rw [h]
  simp [List.isEmpty_iff, hne]

theorem addToBuckets_dlookup (tb : TrackedBuildRequest) (tups : List SSTuple)
    (m : List (SSTuple × List (Nat × TrackedBuildRequest))) (K : SSTuple) :
    dlookup (addToBuckets m tb tups) K =
      if K ∈ tups then some (dinsert ((dlookup m K).getD []) tb.brid tb)
      else dlookup m K := by
  induction tups generalizing m with
  | nil => simp [addToBuckets]
  | cons tup rest ih =>
    simp only [addToBuckets]
    rw [ih]
    by_cases hK : K = tup
    · subst hK
      by_cases hr : K ∈ rest
      · rw [if_pos hr, if_pos (List.mem_cons_self _ _)]
        rw [dlookup_dinsert_self]
        simp only [Option.getD_some]
        rw [dinsert_idem]
      · rw [if_neg hr, if_pos (List.mem_cons_self _ _)]
        rw [dlookup_dinsert_self]
    · have hne : tup ≠ K := fun he => hK he.symm
      by_cases hr : K ∈ rest
      · rw [if_pos hr, if_pos (List.mem_cons.mpr (Or.inr hr))]
        rw [dlookup_dinsert_ne _ _ _ _ hne]
      · rw [if_neg hr, if_neg (by simp [List.mem_cons, hK, hr])]
        rw [dlookup_dinsert_ne _ _ _ _ hne]

theorem nodupKeys_addToBuckets {m : List (SSTuple × List (Nat × TrackedBuildRequest))}
    (hnd : NodupKeys m) (tb : TrackedBuildRequest) (tups : List SSTuple) :
    NodupKeys (addToBuckets m tb tups) := by
  induction tups generalizing m with
  | nil => exact hnd
  | cons tup rest ih =>
    simp only [addToBuckets]
    exact ih (nodupKeys_dinsert hnd _ _)

theorem dinsert_ne_nil {K V : Type} [DecidableEq K] (l : List (K × V)) (k : K) (v : V) :
    dinsert l k v ≠ [] := by
  cases l with
  | nil => simp [dinsert]
  | cons e rest =>
    obtain ⟨k', v'⟩ := e
    by_cases hk : k' = k <;> simp [dinsert, hk]

/-- WF is preserved by `on_new_buildrequest` for an id that is not yet tracked. -/
theorem WFl_on_new {t : OldBuildrequestTracker} (h : WFl t) (brid : Nat)
    (builder : String) (stamps : List SourceStamp)
    (hfresh : dlookup t.br_by_id brid = none) :
    WFl (on_new_buildrequest t brid builder stamps) := by
  cases hm : collectMatched t.filter builder stamps with
  | none => rw [on_new_eq_of_none hm]; exact h
  | some ms =>
    cases hms : ms with
    | nil => rw [on_new_eq_of_empty (hms ▸ hm)]; exact h
    | cons m0 mrest =>
      have hne : ms ≠ [] := by simp [hms]
      rw [on_new_eq_of_matched hm hne]
      set tups := ms.map (stampKey t) with htups
      set tb : TrackedBuildRequest := ⟨brid, tups⟩ with htb
      have htupsne : tups ≠ [] := by simp [htups, hms]
      have hlid : ∀ x, dlookup (dinsert t.br_by_id brid tb) x =
          if x = brid then some tb else dlookup t.br_by_id x := by
        intro x
        by_cases hx : x = brid
        · subst hx; rw [if_pos rfl, dlookup_dinsert_self]
        · rw [if_neg hx, dlookup_dinsert_ne _ _ _ _ (fun he => hx he.symm)]
      have hlss : ∀ K, dlookup (addToBuckets t.br_by_ss tb tups) K =
          if K ∈ tups then some (dinsert ((dlookup t.br_by_ss K).getD []) brid tb)
          else dlookup t.br_by_ss K := fun K => addToBuckets_dlookup tb tups _ K
      constructor
      case ndid => exact nodupKeys_dinsert h.ndid _ _
      case ndss => exact nodupKeys_addToBuckets h.ndss _ _
      case bucket_nd =>
        intro K b hb
        rw [hlss K] at hb
        by_cases hK : K ∈ tups
        · rw [if_pos hK] at hb
          cases hb
          cases h0 : dlookup t.br_by_ss K with
          | none =>
            exact nodupKeys_dinsert (by simp [NodupKeys, dkeys]) brid tb
          | some b0 =>
            have := h.bucket_nd K b0 h0
            simpa [h0] using nodupKeys_dinsert this brid tb
        · rw [if_neg hK] at hb
          exact h.bucket_nd K b hb
      case bucket_ne =>
        intro K b hb
        rw [hlss K] at hb
        by_cases hK : K ∈ tups
        · rw [if_pos hK] at hb
          cases hb
          exact dinsert_ne_nil _ _ _
        · rw [if_neg hK] at hb
          exact h.bucket_ne K b hb
      case id_brid =>
        intro x tbx hx
        rw [hlid x] at hx
        by_cases hxb : x = brid
        · rw [if_pos hxb] at hx
          cases hx
          exact hxb.symm ▸ rfl
        · rw [if_neg hxb] at hx
          exact h.id_brid x tbx hx
      case id_tuples_ne =>
        intro x tbx hx
        rw [hlid x] at hx
        by_cases hxb : x = brid
        · rw [if_pos hxb] at hx
          cases hx
          exact htupsne
        · rw [if_neg hxb] at hx
          exact h.id_tuples_ne x tbx hx
      case id_in_buckets =>
        intro x tbx hx K hK
        rw [hlid x] at hx
        unfold entryLookup
        by_cases hxb : x = brid
        · rw [if_pos hxb] at hx
          cases hx
          subst hxb
          have hKt : K ∈ tups := hK
          rw [show (addToBuckets t.br_by_ss tb tups : List _) =
            (⟨t.filter, t.branch_key, dinsert t.br_by_id x tb,
              addToBuckets t.br_by_ss tb tups⟩ : OldBuildrequestTracker).br_by_ss from rfl]
          rw [hlss K, if_pos hKt]
          simp [dlookup_dinsert_self]
        · rw [if_neg hxb] at hx
          have hold := h.id_in_buckets x tbx hx K hK
          unfold entryLookup at hold
          cases h0 : dlookup t.br_by_ss K with
          | none => rw [h0] at hold; simp at hold
          | some b0 =>
            rw [h0] at hold
            simp only [Option.some_bind] at hold
            rw [show (addToBuckets t.br_by_ss tb tups : List _) =
              (⟨t.filter, t.branch_key, dinsert t.br_by_id brid tb,
                addToBuckets t.br_by_ss tb tups⟩ : OldBuildrequestTracker).br_by_ss from rfl]
            rw [hlss K]
            by_cases hKt : K ∈ tups
            · rw [if_pos hKt]
              simp only [Option.some_bind]
              rw [dlookup_dinsert_ne _ _ _ _ (fun he => hxb he.symm)]
              simp [h0, hold]
            · rw [if_neg hKt, h0]
              simpa using hold
      case bucket_in_id =>
        intro K b hb x tbx he
        rw [show (addToBuckets t.br_by_ss tb tups : List _) =
          (⟨t.filter, t.branch_key, dinsert t.br_by_id brid tb,
            addToBuckets t.br_by_ss tb tups⟩ : OldBuildrequestTracker).br_by_ss from rfl] at hb
        rw [hlss K] at hb
        by_cases hKt : K ∈ tups
        · rw [if_pos hKt] at hb
          cases hb
          by_cases hxb : x = brid
          · subst hxb
            rw [dlookup_dinsert_self] at he
            have htbx : tb = tbx := Option.some_inj.mp he
            subst htbx
            refine ⟨?_, hKt⟩
            rw [hlid x, if_pos rfl]
          · rw [dlookup_dinsert_ne _ _ _ _ (fun heq => hxb heq.symm)] at he
            cases h0 : dlookup t.br_by_ss K with
            | none =>
              rw [h0] at he
              simp [dlookup] at he
            | some b0 =>
              rw [h0] at he
              simp only [Option.getD_some] at he
              obtain ⟨hid0, hK0⟩ := h.bucket_in_id K b0 h0 x tbx he
              refine ⟨?_, hK0⟩
              rw [hlid x, if_neg hxb]
              exact hid0
        · rw [if_neg hKt] at hb
          obtain ⟨hid0, hK0⟩ := h.bucket_in_id K b hb x tbx he
          have hxb : x ≠ brid := by
            intro hEq
            rw [hEq, hfresh] at hid0
            cases hid0
          refine ⟨?_, hK0⟩
          rw [hlid x, if_neg hxb]
          exact hid0

theorem nodupKeys_bucketRemove {m : BrBySS} (hndm : NodupKeys m) (tup : SSTuple)
    (b' : List (Nat × TrackedBuildRequest)) : NodupKeys (bucketRemove m tup b') := by
  unfold bucketRemove
  by_cases he : b'.isEmpty
  · rw [if_pos he]
    exact nodupKeys_derase hndm _
  · rw [if_neg he]
    exact nodupKeys_dinsert hndm _ _

theorem bucketsND_bucketRemove {m : BrBySS} (hndm : NodupKeys m) (hnd : BucketsND m)
    (tup : SSTuple) {b' : List (Nat × TrackedBuildRequest)} (hb' : NodupKeys b') :
    BucketsND (bucketRemove m tup b') := by
  intro K b hb
  unfold bucketRemove at hb
  by_cases he : b'.isEmpty
  · rw [if_pos he] at hb
    by_cases hK : K = tup
    · subst hK
      rw [dlookup_derase_self hndm] at hb
      cases hb
    · rw [dlookup_derase_ne _ _ _ (fun h => hK h.symm)] at hb
      exact hnd K b hb
  · rw [if_neg he] at hb
    by_cases hK : K = tup
    · subst hK
      rw [dlookup_dinsert_self] at hb
      cases hb
      exact hb'
    · rw [dlookup_dinsert_ne _ _ _ _ (fun h => hK h.symm)] at hb
      exact hnd K b hb

theorem dlookup_bucketRemove_ne {m : BrBySS} (tup : SSTuple)
    (b' : List (Nat × TrackedBuildRequest)) {K : SSTuple} (hK : K ≠ tup) :
    dlookup (bucketRemove m tup b') K = dlookup m K := by
  unfold bucketRemove
  by_cases he : b'.isEmpty
  · rw [if_pos he]
    exact dlookup_derase_ne _ _ _ (fun h => hK h.symm)
  · rw [if_neg he]
    exact dlookup_dinsert_ne _ _ _ _ (fun h => hK h.symm)

theorem dlookup_bucketRemove_self {m : BrBySS} (hndm : NodupKeys m) (tup : SSTuple)
    (b' : List (Nat × TrackedBuildRequest)) :
    dlookup (bucketRemove m tup b') tup = if b'.isEmpty then none else some b' := by
  unfold bucketRemove
  by_cases he : b'.isEmpty
  · rw [if_pos he, if_pos he]
    exact dlookup_derase_self hndm tup
  · rw [if_neg he, if_neg he]
    exact dlookup_dinsert_self _ _ _

/-- On success, every listed tuple initially had a bucket containing `brid`. -/
theorem removeFromBuckets_ok_mem {brid : Nat} :
    ∀ (tups : List SSTuple) (m m' : BrBySS), NodupKeys m → BucketsND m →
    removeFromBuckets m brid tups = .ok m' →
    ∀ K ∈ tups, ∃ b, dlookup m K = some b ∧ (dlookup b brid).isSome
  | [], _, _, _, _, _, K, hK => by simp at hK
  | tup :: rest, m, m', hndm, hnd, hok, K, hK => by
    rw [removeFromBuckets] at hok
    cases h0 : dlookup m tup with
    | none => simp [h0] at hok
    | some b0 =>
      simp only [h0] at hok
      by_cases hin : (dlookup b0 brid).isSome
      · rw [if_pos hin] at hok
        rcases List.mem_cons.mp hK with hKt | hKr
        · subst hKt
          exact ⟨b0, h0, hin⟩
        · by_cases hKtup : K = tup
          · subst hKtup
            exact ⟨b0, h0, hin⟩
          · have hnd0 := hnd tup b0 h0
            have ih := removeFromBuckets_ok_mem rest _ m'
              (nodupKeys_bucketRemove hndm _ _)
              (bucketsND_bucketRemove hndm hnd _ (nodupKeys_derase hnd0 _)) hok K hKr
            obtain ⟨b, hb, hbs⟩ := ih
            rw [dlookup_bucketRemove_ne _ _ hKtup] at hb
            exact ⟨b, hb, hbs⟩
      · rw [if_neg hin] at hok
        cases hok

/-- Buckets not listed are untouched by the removal loop. -/
theorem removeFromBuckets_frame {brid : Nat} :
    ∀ (tups : List SSTuple) (m m' : BrBySS),
    removeFromBuckets m brid tups = .ok m' →
    ∀ K, K ∉ tups → dlookup m' K = dlookup m K
  | [], m, m', hok, K, _ => by
    rw [removeFromBuckets] at hok
    cases hok
    rfl
  | tup :: rest, m, m', hok, K, hK => by
    rw [removeFromBuckets] at hok
    cases h0 : dlookup m tup with
    | none => simp [h0] at hok
    | some b0 =>
      simp only [h0] at hok
      by_cases hin : (dlookup b0 brid).isSome
      · rw [if_pos hin] at hok
        have hKr : K ∉ rest := fun h => hK (List.mem_cons.mpr (Or.inr h))
        have hKt : K ≠ tup := fun h => hK (h ▸ List.mem_cons_self _ _)
        rw [removeFromBuckets_frame rest _ m' hok K hKr]
        exact dlookup_bucketRemove_ne _ _ hKt
      · rw [if_neg hin] at hok
        cases hok

/-- The removal loop keeps key and bucket distinctness. -/
theorem removeFromBuckets_nodup {brid : Nat} :
    ∀ (tups : List SSTuple) (m m' : BrBySS), NodupKeys m → BucketsND m →
    removeFromBuckets m brid tups = .ok m' →
    NodupKeys m' ∧ BucketsND m'
  | [], m, m', hndm, hnd, hok => by
    rw [removeFromBuckets] at hok
    cases hok
    exact ⟨hndm, hnd⟩
  | tup :: rest, m, m', hndm, hnd, hok => by
    rw [removeFromBuckets] at hok
    cases h0 : dlookup m tup with
    | none => simp [h0] at hok
    | some b0 =>
      simp only [h0] at hok
      by_cases hin : (dlookup b0 brid).isSome
      · rw [if_pos hin] at hok
        exact removeFromBuckets_nodup rest _ m'
          (nodupKeys_bucketRemove hndm _ _)
          (bucketsND_bucketRemove hndm hnd _ (nodupKeys_derase (hnd tup b0 h0) _)) hok
      · rw [if_neg hin] at hok
        cases hok

/-- On success, every listed bucket ends up with `brid` removed (and dropped
entirely if that left it empty). -/
theorem removeFromBuckets_removed {brid : Nat} :
    ∀ (tups : List SSTuple) (m m' : BrBySS), NodupKeys m → BucketsND m →
    removeFromBuckets m brid tups = .ok m' →
    ∀ K ∈ tups, ∀ b, dlookup m K = some b →
    dlookup m' K = if (derase b brid).isEmpty then none else some (derase b brid)
  | [], _, _, _, _, _, K, hK, _, _ => by simp at hK
  | tup :: rest, m, m', hndm, hnd, hok, K, hK, b, hb => by
    rw [removeFromBuckets] at hok
    cases h0 : dlookup m tup with
    | none => simp [h0] at hok
    | some b0 =>
      simp only [h0] at hok
      by_cases hin : (dlookup b0 brid).isSome
      · rw [if_pos hin] at hok
        have hndm1 := @nodupKeys_bucketRemove m hndm tup (derase b0 brid)
        have hnd1 := @bucketsND_bucketRemove m hndm hnd tup _
          (nodupKeys_derase (hnd tup b0 h0) brid)
        by_cases hKtup : K = tup
        · subst hKtup
          have hbb0 : b = b0 := by rw [h0] at hb; exact Option.some_inj.mp hb.symm
          subst hbb0
          by_cases hKr : K ∈ rest
          · -- the loop would find the bucket without `brid` and fail; success
            -- of the remaining loop contradicts this
            exfalso
            obtain ⟨b1, hb1, hb1s⟩ := removeFromBuckets_ok_mem rest _ m' hndm1 hnd1 hok K hKr
            rw [dlookup_bucketRemove_self hndm] at hb1
            by_cases hemp : (derase b brid).isEmpty
            · rw [if_pos hemp] at hb1
              cases hb1
            · rw [if_neg hemp] at hb1
              cases hb1
              rw [dlookup_derase_self (hnd K b h0) brid] at hb1s
              simp at hb1s
          · rw [removeFromBuckets_frame rest _ m' hok K hKr]
            exact dlookup_bucketRemove_self hndm K (derase b brid)
        · rcases List.mem_cons.mp hK with hKt | hKr
          · exact absurd hKt hKtup
          · have hb1 : dlookup (bucketRemove m tup (derase b0 brid)) K = some b := by
              rw [dlookup_bucketRemove_ne _ _ hKtup]
              exact hb
            exact removeFromBuckets_removed rest _ m' hndm1 hnd1 hok K hKr b hb1
      · rw [if_neg hin] at hok
        cases hok

/-- If some listed tuple has no bucket at all, the loop fails loudly. -/
theorem removeFromBuckets_err_of_missing {brid : Nat} :
    ∀ (tups : List SSTuple) (m : BrBySS),
    (∃ K ∈ tups, dlookup m K = none) →
    (removeFromBuckets m brid tups).isOk = false
  | [], _, h => by simp at h
  | tup :: rest, m, h => by
    rw [removeFromBuckets]
    cases h0 : dlookup m tup with
    | none => simp only [h0]; rfl
    | some b0 =>
      simp only [h0]
      by_cases hin : (dlookup b0 brid).isSome
      · rw [if_pos hin]
        obtain ⟨K, hK, hnone⟩ := h
        have hKtup : K ≠ tup := fun he => by rw [he, h0] at hnone; cases hnone
        have hKr : K ∈ rest := by
          rcases List.mem_cons.mp hK with h1 | h2
          · exact absurd h1 hKtup
          · exact h2
        exact removeFromBuckets_err_of_missing rest _
          ⟨K, hKr, by rw [dlookup_bucketRemove_ne _ _ hKtup]; exact hnone⟩
      · rw [if_neg hin]
        rfl

/-! ### `on_complete_buildrequest`: characterization and WF preservation -/
theorem on_complete_eq_of_untracked {t : OldBuildrequestTracker} {brid : Nat}
    (h : dlookup t.br_by_id brid = none) :
    on_complete_buildrequest t brid = .ok t := by
  unfold on_complete_buildrequest
  rw [h]

theorem on_complete_err_of_missing_bucket {t : OldBuildrequestTracker} {brid : Nat}
    {tb : TrackedBuildRequest} {K : SSTuple}
    (hid : dlookup t.br_by_id brid = some tb) (hK : K ∈ tb.ss_tuples)
    (hmiss : dlookup t.br_by_ss K = none) :
    (on_complete_buildrequest t brid).isOk = false := by
  have herr := @removeFromBuckets_err_of_missing brid tb.ss_tuples t.br_by_ss
    ⟨K, hK, hmiss⟩
  unfold on_complete_buildrequest
  simp only [hid]
  cases hrm : removeFromBuckets t.br_by_ss brid tb.ss_tuples with
  | error e =>
    simp only [hrm]
    rfl
  | ok m' =>
    rw [hrm] at herr
    simp [Except.isOk, Except.toBool] at herr

theorem WFl_on_complete {t t' : OldBuildrequestTracker} (h : WFl t) {brid : Nat}
    (hok : on_complete_buildrequest t brid = .ok t') : WFl t' := by
  unfold on_complete_buildrequest at hok
  cases hid : dlookup t.br_by_id brid with
  | none =>
    rw [hid] at hok
    cases hok
    exact h
  | some tb =>
    simp only [hid] at hok
    cases hrm : removeFromBuckets t.br_by_ss brid tb.ss_tuples with
    | error e =>
      rw [hrm] at hok
      cases hok
    | ok m' =>
      rw [hrm] at hok
      cases hok
      have hndm : NodupKeys t.br_by_ss := h.ndss
      have hnd : BucketsND t.br_by_ss := fun K b hb => h.bucket_nd K b hb
      have hmem := removeFromBuckets_ok_mem tb.ss_tuples _ _ hndm hnd hrm
      have hframe := removeFromBuckets_frame tb.ss_tuples _ _ hrm
      have hnodup := removeFromBuckets_nodup tb.ss_tuples _ _ hndm hnd hrm
      have hremoved := removeFromBuckets_removed tb.ss_tuples _ _ hndm hnd hrm
      have hlid : ∀ x, dlookup (derase t.br_by_id brid) x =
          if x = brid then none else dlookup t.br_by_id x := by
        intro x
        by_cases hx : x = brid
        · subst hx
          rw [if_pos rfl]
          exact dlookup_derase_self h.ndid x
        · rw [if_neg hx]
          exact dlookup_derase_ne _ _ _ (fun he => hx he.symm)
      constructor
      case ndid => exact nodupKeys_derase h.ndid _
      case ndss => exact hnodup.1
      case bucket_nd => exact fun K b hb => hnodup.2 K b hb
      case bucket_ne =>
        intro K b hb
        by_cases hK : K ∈ tb.ss_tuples
        · obtain ⟨b0, hb0, _⟩ := hmem K hK
          rw [hremoved K hK b0 hb0] at hb
          by_cases hemp : (derase b0 brid).isEmpty
          · rw [if_pos hemp] at hb
            cases hb
          · rw [if_neg hemp] at hb
            cases hb
            intro hnil
            exact hemp (by simp [hnil])
        · rw [hframe K hK] at hb
          exact h.bucket_ne K b hb
      case id_brid =>
        intro x tbx hx
        rw [hlid x] at hx
        by_cases hxb : x = brid
        · rw [if_pos hxb] at hx
          cases hx
        · rw [if_neg hxb] at hx
          exact h.id_brid x tbx hx
      case id_tuples_ne =>
        intro x tbx hx
        rw [hlid x] at hx
        by_cases hxb : x = brid
        · rw [if_pos hxb] at hx
          cases hx
        · rw [if_neg hxb] at hx
          exact h.id_tuples_ne x tbx hx
      case id_in_buckets =>
        intro x tbx hx K hK
        rw [hlid x] at hx
        by_cases hxb : x = brid
        · rw [if_pos hxb] at hx
          cases hx
        · rw [if_neg hxb] at hx
          have hold := h.id_in_buckets x tbx hx K hK
          unfold entryLookup at hold ⊢
          cases h0 : dlookup t.br_by_ss K with
          | none =>
            rw [h0] at hold
            cases hold
          | some b0 =>
            rw [h0] at hold
            simp only [Option.some_bind] at hold
            by_cases hKt : K ∈ tb.ss_tuples
            · have hms := hremoved K hKt b0 h0
              have hlx : dlookup (derase b0 brid) x = some tbx := by
                rw [dlookup_derase_ne _ _ _ (fun he => hxb he.symm)]
                exact hold
              have hemp : (derase b0 brid).isEmpty = false := by
                cases hemp0 : (derase b0 brid).isEmpty
                · rfl
                · rw [List.isEmpty_iff.mp hemp0] at hlx
                  cases hlx
              rw [hms, hemp] at *
              show ((if false = true then none else some (derase b0 brid)).bind
                fun b => dlookup b x) = some tbx
              simp only [if_neg (by simp : ¬(false = true)), Option.some_bind]
              exact hlx
            · rw [hframe K hKt, h0]
              simpa using hold
      case bucket_in_id =>
        intro K b hb x tbx he
        show dlookup (derase t.br_by_id brid) x = some tbx ∧ K ∈ tbx.ss_tuples
        by_cases hK : K ∈ tb.ss_tuples
        · obtain ⟨b0, hb0, _⟩ := hmem K hK
          rw [hremoved K hK b0 hb0] at hb
          by_cases hemp : (derase b0 brid).isEmpty
          · rw [if_pos hemp] at hb
            cases hb
          · rw [if_neg hemp] at hb
            cases hb
            have hxb : x ≠ brid := by
              intro hEq
              subst hEq
              rw [dlookup_derase_self (h.bucket_nd K b0 hb0) x] at he
              cases he
            rw [dlookup_derase_ne _ _ _ (fun h0 => hxb h0.symm)] at he
            obtain ⟨hid0, hK0⟩ := h.bucket_in_id K b0 hb0 x tbx he
            refine ⟨?_, hK0⟩
            rw [hlid x, if_neg hxb]
            exact hid0
        · rw [hframe K hK] at hb
          obtain ⟨hid0, hK0⟩ := h.bucket_in_id K b hb x tbx he
          have hxb : x ≠ brid := by
            intro hEq
            subst hEq
            rw [hid] at hid0
            cases hid0
            exact hK hK0
          refine ⟨?_, hK0⟩
          rw [hlid x, if_neg hxb]
          exact hid0

/-! ### `on_change`: characterization and WF preservation -/
theorem derase_eq_nil_lookup {K V : Type} [DecidableEq K] {l : List (K × V)} {k : K}
    (h : derase l k = []) : ∀ x, x ≠ k → dlookup l x = none := by
  intro x hx
  cases l with
  | nil => rfl
  | cons e rest =>
    obtain ⟨k', v'⟩ := e
    by_cases hk : k' = k
    · subst hk
      simp only [derase, if_pos rfl] at h
      subst h
      simp only [dlookup]
      rw [if_neg (fun he => hx he.symm)]
    · simp only [derase, if_neg hk] at h
      cases h

theorem eq_singleton_of_mem_length_one {α : Type} {l : List α} {a : α}
    (ha : a ∈ l) (hl : l.length = 1) : l = [a] := by
  cases l with
  | nil => cases ha
  | cons x rest =>
    cases rest with
    | nil =>
      rcases List.mem_cons.mp ha with h | h
      · rw [h]
      · cases h
    | cons y rest2 => simp at hl

/-- On the success path, skipping the changed tuple is the same as removing it
from the list first (the two loops differ only in their error messages). -/
theorem removeFromOtherBuckets_ok_iff (brid : Nat) (K0 : SSTuple) :
    ∀ (tups : List SSTuple) (m m' : BrBySS),
    (removeFromOtherBuckets m brid K0 tups = .ok m' ↔
      removeFromBuckets m brid (tups.filter (fun K => K ≠ K0)) = .ok m')
  | [], m, m' => by
    simp only [List.filter_nil]
    rw [removeFromOtherBuckets, removeFromBuckets]
  | tup :: rest, m, m' => by
    by_cases h : tup = K0
    · rw [removeFromOtherBuckets, if_pos h]
      rw [List.filter_cons, if_neg (by simp [h])]
      exact removeFromOtherBuckets_ok_iff brid K0 rest m m'
    · rw [removeFromOtherBuckets, if_neg h]
      rw [List.filter_cons, if_pos (by simp [h])]
      rw [removeFromBuckets]
      cases h0 : dlookup m tup with
      | none => constructor <;> (intro hc; cases hc)
      | some b0 =>
        simp only []
        by_cases hin : (dlookup b0 brid).isSome
        · rw [if_pos hin, if_pos hin]
          exact removeFromOtherBuckets_ok_iff brid K0 rest _ m'
        · rw [if_neg hin, if_neg hin]

theorem mem_filter_ne {K0 K' : SSTuple} {tups : List SSTuple} :
    K' ∈ tups.filter (fun x => x ≠ K0) ↔ K' ∈ tups ∧ K' ≠ K0 := by
  simp [List.mem_filter]

/-- One step of the cancellation loop, single-tuple case: the request's only
key is the changed one, whose bucket is already gone, so only the id-index
shrinks. -/
theorem PCInv_step_single {K : SSTuple} {t : OldBuildrequestTracker}
    {tb : TrackedBuildRequest} {rest : List TrackedBuildRequest}
    (h : PCInv K t (tb :: rest)) (htup : tb.ss_tuples = [K]) :
    PCInv K { t with br_by_id := derase t.br_by_id tb.brid } rest := by
  have hin : dlookup t.br_by_id tb.brid = some tb := h.pend_id tb (List.mem_cons_self _ _)
  have hpnd := h.pend_nd
  rw [List.map_cons, List.nodup_cons] at hpnd
  have hlid : ∀ x, dlookup (derase t.br_by_id tb.brid) x =
      if x = tb.brid then none else dlookup t.br_by_id x := by
    intro x
    by_cases hx : x = tb.brid
    · subst hx
      rw [if_pos rfl]
      exact dlookup_derase_self h.ndid tb.brid
    · rw [if_neg hx]
      exact dlookup_derase_ne _ _ _ (fun he => hx he.symm)
  constructor
  case ndid => exact nodupKeys_derase h.ndid _
  case ndss => exact h.ndss
  case bucket_nd => exact h.bucket_nd
  case bucket_ne => exact h.bucket_ne
  case hK => exact h.hK
  case pend_id =>
    intro tb' htb'
    show dlookup (derase t.br_by_id tb.brid) tb'.brid = some tb'
    rw [hlid]
    have hne : tb'.brid ≠ tb.brid := by
      intro he
      apply hpnd.1
      rw [← he]
      exact List.mem_map.mpr ⟨tb', htb', rfl⟩
    rw [if_neg hne]
    exact h.pend_id tb' (List.mem_cons_of_mem _ htb')
  case pend_K => exact fun tb' htb' => h.pend_K tb' (List.mem_cons_of_mem _ htb')
  case pend_nd => exact hpnd.2
  case id_brid =>
    intro x tbx hx
    rw [hlid] at hx
    by_cases hxb : x = tb.brid
    · rw [if_pos hxb] at hx; cases hx
    · rw [if_neg hxb] at hx
      exact h.id_brid x tbx hx
  case id_tuples_ne =>
    intro x tbx hx
    rw [hlid] at hx
    by_cases hxb : x = tb.brid
    · rw [if_pos hxb] at hx; cases hx
    · rw [if_neg hxb] at hx
      exact h.id_tuples_ne x tbx hx
  case id_pending =>
    intro x tbx hx hKx
    rw [hlid] at hx
    by_cases hxb : x = tb.brid
    · rw [if_pos hxb] at hx; cases hx
    · rw [if_neg hxb] at hx
      have := h.id_pending x tbx hx hKx
      rcases List.mem_cons.mp this with heq | hmem
      · exfalso
        have hbx : tbx.brid = x := h.id_brid x tbx hx
        rw [heq] at hbx
        exact hxb hbx.symm
      · exact hmem
  case id_in_buckets =>
    intro x tbx hx K' hK' hKne
    rw [hlid] at hx
    by_cases hxb : x = tb.brid
    · rw [if_pos hxb] at hx; cases hx
    · rw [if_neg hxb] at hx
      exact h.id_in_buckets x tbx hx K' hK' hKne
  case bucket_in_id =>
    intro K' b hb x tbx he
    obtain ⟨hid0, hK0⟩ := h.bucket_in_id K' b hb x tbx he
    have hxb : x ≠ tb.brid := by
      intro hEq
      subst hEq
      rw [hin] at hid0
      cases hid0
      rw [htup] at hK0
      rcases List.mem_cons.mp hK0 with heq | hmem
      · subst heq
        rw [h.hK] at hb
        cases hb
      · cases hmem
    refine ⟨?_, hK0⟩
    show dlookup (derase t.br_by_id tb.brid) x = some tbx
    rw [hlid, if_neg hxb]
    exact hid0

/-- One step of the cancellation loop, multi-tuple case: the id-index entry is
removed and the id is erased from the buckets of all its other keys. -/
theorem PCInv_step_multi {K : SSTuple} {t : OldBuildrequestTracker}
    {tb : TrackedBuildRequest} {rest : List TrackedBuildRequest} {m2 : BrBySS}
    (h : PCInv K t (tb :: rest))
    (hrob : removeFromOtherBuckets t.br_by_ss tb.brid K tb.ss_tuples = .ok m2) :
    PCInv K { t with br_by_id := derase t.br_by_id tb.brid, br_by_ss := m2 } rest := by
  have hin : dlookup t.br_by_id tb.brid = some tb := h.pend_id tb (List.mem_cons_self _ _)
  have hpnd := h.pend_nd
  rw [List.map_cons, List.nodup_cons] at hpnd
  have hrfb := (removeFromOtherBuckets_ok_iff tb.brid K tb.ss_tuples _ m2).mp hrob
  set ftups := tb.ss_tuples.filter (fun x => x ≠ K) with hftups
  have hndm : NodupKeys t.br_by_ss := h.ndss
  have hndb : BucketsND t.br_by_ss := h.bucket_nd
  have hmem := removeFromBuckets_ok_mem ftups _ _ hndm hndb hrfb
  have hframe := removeFromBuckets_frame ftups _ _ hrfb
  have hnodup := removeFromBuckets_nodup ftups _ _ hndm hndb hrfb
  have hremoved := removeFromBuckets_removed ftups _ _ hndm hndb hrfb
  have hlid : ∀ x, dlookup (derase t.br_by_id tb.brid) x =
      if x = tb.brid then none else dlookup t.br_by_id x := by
    intro x
    by_cases hx : x = tb.brid
    · subst hx
      rw [if_pos rfl]
      exact dlookup_derase_self h.ndid tb.brid
    · rw [if_neg hx]
      exact dlookup_derase_ne _ _ _ (fun he => hx he.symm)
  constructor
  case ndid => exact nodupKeys_derase h.ndid _
  case ndss => exact hnodup.1
  case bucket_nd => exact hnodup.2
  case bucket_ne =>
    intro K' b hb
    by_cases hK' : K' ∈ ftups
    · obtain ⟨b0, hb0, _⟩ := hmem K' hK'
      rw [hremoved K' hK' b0 hb0] at hb
      by_cases hemp : (derase b0 tb.brid).isEmpty
      · rw [if_pos hemp] at hb
        cases hb
      · rw [if_neg hemp] at hb
        cases hb
        intro hnil
        exact hemp (by simp [hnil])
    · rw [hframe K' hK'] at hb
      exact h.bucket_ne K' b hb
  case hK =>
    show dlookup m2 K = none
    have hKf : K ∉ ftups := by
      rw [hftups, mem_filter_ne]
      rintro ⟨-, hne⟩
      exact hne rfl
    rw [hframe K hKf]
    exact h.hK
  case pend_id =>
    intro tb' htb'
    show dlookup (derase t.br_by_id tb.brid) tb'.brid = some tb'
    rw [hlid]
    have hne : tb'.brid ≠ tb.brid := by
      intro he
      apply hpnd.1
      rw [← he]
      exact List.mem_map.mpr ⟨tb', htb', rfl⟩
    rw [if_neg hne]
    exact h.pend_id tb' (List.mem_cons_of_mem _ htb')
  case pend_K => exact fun tb' htb' => h.pend_K tb' (List.mem_cons_of_mem _ htb')
  case pend_nd => exact hpnd.2
  case id_brid =>
    intro x tbx hx
    rw [hlid] at hx
    by_cases hxb : x = tb.brid
    · rw [if_pos hxb] at hx; cases hx
    · rw [if_neg hxb] at hx
      exact h.id_brid x tbx hx
  case id_tuples_ne =>
    intro x tbx hx
    rw [hlid] at hx
    by_cases hxb : x = tb.brid
    · rw [if_pos hxb] at hx; cases hx
    · rw [if_neg hxb] at hx
      exact h.id_tuples_ne x tbx hx
  case id_pending =>
    intro x tbx hx hKx
    rw [hlid] at hx
    by_cases hxb : x = tb.brid
    · rw [if_pos hxb] at hx; cases hx
    · rw [if_neg hxb] at hx
      have := h.id_pending x tbx hx hKx
      rcases List.mem_cons.mp this with heq | hmem2
      · exfalso
        have hbx : tbx.brid = x := h.id_brid x tbx hx
        rw [heq] at hbx
        exact hxb hbx.symm
      · exact hmem2
  case id_in_buckets =>
    intro x tbx hx K' hK' hKne
    rw [hlid] at hx
    by_cases hxb : x = tb.brid
    · rw [if_pos hxb] at hx; cases hx
    · rw [if_neg hxb] at hx
      have hold := h.id_in_buckets x tbx hx K' hK' hKne
      unfold entryLookup at hold
      show (dlookup m2 K').bind (fun b => dlookup b x) = some tbx
      cases hb0 : dlookup t.br_by_ss K' with
      | none =>
        rw [hb0] at hold
        cases hold
      | some b0 =>
        rw [hb0] at hold
        simp only [Option.some_bind] at hold
        by_cases hKf : K' ∈ ftups
        · have hms := hremoved K' hKf b0 hb0
          have hlx : dlookup (derase b0 tb.brid) x = some tbx := by
            rw [dlookup_derase_ne _ _ _ (fun he => hxb he.symm)]
            exact hold
          have hemp : (derase b0 tb.brid).isEmpty = false := by
            cases hemp0 : (derase b0 tb.brid).isEmpty
            · rfl
            · rw [List.isEmpty_iff.mp hemp0] at hlx
              cases hlx
          rw [hms, hemp]
          simp only [Bool.false_eq_true, if_false, Option.some_bind]
          exact hlx
        · rw [hframe K' hKf, hb0]
          simp only [Option.some_bind]
          exact hold
  case bucket_in_id =>
    intro K' b hb x tbx he
    show dlookup (derase t.br_by_id tb.brid) x = some tbx ∧ K' ∈ tbx.ss_tuples
    by_cases hKf : K' ∈ ftups
    · obtain ⟨b0, hb0, _⟩ := hmem K' hKf
      rw [hremoved K' hKf b0 hb0] at hb
      by_cases hemp : (derase b0 tb.brid).isEmpty
      · rw [if_pos hemp] at hb
        cases hb
      · rw [if_neg hemp] at hb
        cases hb
        have hxb : x ≠ tb.brid := by
          intro hEq
          subst hEq
          rw [dlookup_derase_self (h.bucket_nd K' b0 hb0) tb.brid] at he
          cases he
        rw [dlookup_derase_ne _ _ _ (fun h0 => hxb h0.symm)] at he
        obtain ⟨hid0, hK0⟩ := h.bucket_in_id K' b0 hb0 x tbx he
        refine ⟨?_, hK0⟩
        rw [hlid, if_neg hxb]
        exact hid0
    · rw [hframe K' hKf] at hb
      obtain ⟨hid0, hK0⟩ := h.bucket_in_id K' b hb x tbx he
      have hxb : x ≠ tb.brid := by
        intro hEq
        subst hEq
        rw [hin] at hid0
        cases hid0
        apply hKf
        rw [hftups, mem_filter_ne]
        refine ⟨hK0, ?_⟩
        intro hKK
        subst hKK
        rw [h.hK] at hb
        cases hb
      refine ⟨?_, hK0⟩
      rw [hlid, if_neg hxb]
      exact hid0

/-- While the changed bucket is popped, a pending request with the changed
tuple as its only key occurs in no remaining bucket. -/
theorem head_gone_of_single {K : SSTuple} {t : OldBuildrequestTracker}
    {tb : TrackedBuildRequest} {rest : List TrackedBuildRequest}
    (h : PCInv K t (tb :: rest)) (htup : tb.ss_tuples = [K]) :
    ∀ K', entryLookup t K' tb.brid = none := by
  intro K'
  unfold entryLookup
  cases hbK : dlookup t.br_by_ss K' with
  | none => rfl
  | some b =>
    simp only [Option.some_bind]
    cases hbx : dlookup b tb.brid with
    | none => rfl
    | some tbx =>
      exfalso
      obtain ⟨hid0, hK0⟩ := h.bucket_in_id K' b hbK tb.brid tbx hbx
      rw [h.pend_id tb (List.mem_cons_self _ _)] at hid0
      cases hid0
      rw [htup] at hK0
      rcases List.mem_cons.mp hK0 with heq | hm
      · subst heq
        rw [h.hK] at hbK
        cases hbK
      · cases hm

/-- After the multi-tuple step, the processed id occurs in no bucket. -/
theorem head_gone_of_multi {K : SSTuple} {t : OldBuildrequestTracker}
    {tb : TrackedBuildRequest} {rest : List TrackedBuildRequest} {m2 : BrBySS}
    (h : PCInv K t (tb :: rest))
    (hrob : removeFromOtherBuckets t.br_by_ss tb.brid K tb.ss_tuples = .ok m2) :
    ∀ K', (dlookup m2 K').bind (fun b => dlookup b tb.brid) = none := by
  have hin : dlookup t.br_by_id tb.brid = some tb := h.pend_id tb (List.mem_cons_self _ _)
  have hrfb := (removeFromOtherBuckets_ok_iff tb.brid K tb.ss_tuples _ m2).mp hrob
  set ftups := tb.ss_tuples.filter (fun x => x ≠ K) with hftups
  have hmem := removeFromBuckets_ok_mem ftups _ _ h.ndss h.bucket_nd hrfb
  have hframe := removeFromBuckets_frame ftups _ _ hrfb
  have hremoved := removeFromBuckets_removed ftups _ _ h.ndss h.bucket_nd hrfb
  intro K'
  by_cases hKf : K' ∈ ftups
  · obtain ⟨b0, hb0, _⟩ := hmem K' hKf
    rw [hremoved K' hKf b0 hb0]
    by_cases hemp : (derase b0 tb.brid).isEmpty
    · rw [if_pos hemp]
      rfl
    · rw [if_neg hemp]
      simp only [Option.some_bind]
      exact dlookup_derase_self (h.bucket_nd K' b0 hb0) tb.brid
  · rw [hframe K' hKf]
    cases hbK : dlookup t.br_by_ss K' with
    | none => rfl
    | some b =>
      simp only [Option.some_bind]
      cases hbx : dlookup b tb.brid with
      | none => rfl
      | some tbx =>
        exfalso
        obtain ⟨hid0, hK0⟩ := h.bucket_in_id K' b hbK tb.brid tbx hbx
        rw [hin] at hid0
        cases hid0
        apply hKf
        rw [hftups, mem_filter_ne]
        refine ⟨hK0, ?_⟩
        intro hKK
        subst hKK
        rw [h.hK] at hbK
        cases hbK

/-- The multi-tuple step does not disturb the bucket entries of other ids. -/
theorem entry_frame_of_multi {K : SSTuple} {t : OldBuildrequestTracker}
    {tb : TrackedBuildRequest} {rest : List TrackedBuildRequest} {m2 : BrBySS}
    (h : PCInv K t (tb :: rest))
    (hrob : removeFromOtherBuckets t.br_by_ss tb.brid K tb.ss_tuples = .ok m2) :
    ∀ x, x ≠ tb.brid → ∀ K',
      (dlookup m2 K').bind (fun b => dlookup b x) = entryLookup t K' x := by
  have hrfb := (removeFromOtherBuckets_ok_iff tb.brid K tb.ss_tuples _ m2).mp hrob
  set ftups := tb.ss_tuples.filter (fun x => x ≠ K) with hftups
  have hmem := removeFromBuckets_ok_mem ftups _ _ h.ndss h.bucket_nd hrfb
  have hframe := removeFromBuckets_frame ftups _ _ hrfb
  have hremoved := removeFromBuckets_removed ftups _ _ h.ndss h.bucket_nd hrfb
  intro x hx K'
  unfold entryLookup
  by_cases hKf : K' ∈ ftups
  · obtain ⟨b0, hb0, _⟩ := hmem K' hKf
    rw [hremoved K' hKf b0 hb0, hb0]
    by_cases hemp : (derase b0 tb.brid).isEmpty
    · rw [if_pos hemp]
      simp only [Option.none_bind, Option.some_bind]
      rw [derase_eq_nil_lookup (List.isEmpty_iff.mp hemp) x hx]
    · rw [if_neg hemp]
      simp only [Option.some_bind]
      exact dlookup_derase_ne _ _ _ (fun he => hx he.symm)
  · rw [hframe K' hKf]

theorem processCancelled_spec (K : SSTuple) :
    ∀ (l : List TrackedBuildRequest) (t t' : OldBuildrequestTracker),
    PCInv K t l → processCancelled K t l = .ok t' →
    PCInv K t' [] ∧
    (∀ x ∈ l.map TrackedBuildRequest.brid,
      dlookup t'.br_by_id x = none ∧ ∀ K', entryLookup t' K' x = none) ∧
    (∀ x, x ∉ l.map TrackedBuildRequest.brid →
      dlookup t'.br_by_id x = dlookup t.br_by_id x ∧
      ∀ K', entryLookup t' K' x = entryLookup t K' x)
  | [], t, t', hinv, hok => by
    rw [processCancelled] at hok
    cases hok
    exact ⟨hinv, by simp, fun x _ => ⟨rfl, fun K' => rfl⟩⟩
  | tb :: rest, t, t', hinv, hok => by
    have hin : dlookup t.br_by_id tb.brid = some tb :=
      hinv.pend_id tb (List.mem_cons_self _ _)
    have hpnd := hinv.pend_nd
    rw [List.map_cons, List.nodup_cons] at hpnd
    rw [processCancelled] at hok
    rw [if_pos (show (dlookup t.br_by_id tb.brid).isSome = true by rw [hin]; rfl)] at hok
    by_cases hlen : tb.ss_tuples.length = 1
    · rw [if_pos hlen] at hok
      have htup : tb.ss_tuples = [K] :=
        eq_singleton_of_mem_length_one (hinv.pend_K tb (List.mem_cons_self _ _)) hlen
      have hstep := PCInv_step_single hinv htup
      obtain ⟨hfin, hrem, hfr⟩ := processCancelled_spec K rest _ t' hstep hok
      refine ⟨hfin, ?_, ?_⟩
      · intro x hxmem
        rw [List.map_cons, List.mem_cons] at hxmem
        rcases hxmem with hxh | hxr
        · subst hxh
          have hnotr : tb.brid ∉ rest.map TrackedBuildRequest.brid := hpnd.1
          obtain ⟨hids, hbks⟩ := hfr tb.brid hnotr
          constructor
          · rw [hids]
            exact dlookup_derase_self hinv.ndid tb.brid
          · intro K'
            rw [hbks K']
            exact head_gone_of_single hinv htup K'
        · exact hrem x hxr
      · intro x hxmem
        rw [List.map_cons, List.mem_cons, not_or] at hxmem
        obtain ⟨hids, hbks⟩ := hfr x hxmem.2
        constructor
        · rw [hids]
          exact dlookup_derase_ne _ _ _ (fun he => hxmem.1 he.symm)
        · exact hbks
    · rw [if_neg hlen] at hok
      cases hrob : removeFromOtherBuckets t.br_by_ss tb.brid K tb.ss_tuples with
      | error e =>
        rw [hrob] at hok
        cases hok
      | ok m2 =>
        rw [hrob] at hok
        have hstep := PCInv_step_multi hinv hrob
        obtain ⟨hfin, hrem, hfr⟩ := processCancelled_spec K rest _ t' hstep hok
        refine ⟨hfin, ?_, ?_⟩
        · intro x hxmem
          rw [List.map_cons, List.mem_cons] at hxmem
          rcases hxmem with hxh | hxr
          · subst hxh
            have hnotr : tb.brid ∉ rest.map TrackedBuildRequest.brid := hpnd.1
            obtain ⟨hids, hbks⟩ := hfr tb.brid hnotr
            constructor
            · rw [hids]
              exact dlookup_derase_self hinv.ndid tb.brid
            · intro K'
              rw [hbks K']
              exact head_gone_of_multi hinv hrob K'
          · exact hrem x hxr
        · intro x hxmem
          rw [List.map_cons, List.mem_cons, not_or] at hxmem
          obtain ⟨hids, hbks⟩ := hfr x hxmem.2
          constructor
          · rw [hids]
            exact dlookup_derase_ne _ _ _ (fun he => hxmem.1 he.symm)
          · intro K'
            rw [hbks K']
            exact entry_frame_of_multi hinv hrob x hxmem.1 K'

/-- In a well-formed tracker the values of a bucket carry the bucket's keys
as their ids. -/
theorem dvalues_map_brid {t : OldBuildrequestTracker} (h : WFl t) {K : SSTuple}
    {B : List (Nat × TrackedBuildRequest)} (hB : dlookup t.br_by_ss K = some B) :
    (dvalues B).map TrackedBuildRequest.brid = dkeys B := by
  have hpt : ∀ e ∈ B, e.2.brid = e.1 := by
    intro e he
    obtain ⟨x, tbx⟩ := e
    have hBe := dlookup_of_mem (h.bucket_nd K B hB) he
    obtain ⟨hid, _⟩ := h.bucket_in_id K B hB x tbx hBe
    exact h.id_brid x tbx hid
  unfold dvalues dkeys
  rw [List.map_map]
  exact List.map_congr_left hpt

/-- Popping the changed bucket establishes the cancellation-loop invariant. -/
theorem PCInv_init {t : OldBuildrequestTracker} (h : WFl t) {K : SSTuple}
    {B : List (Nat × TrackedBuildRequest)} (hB : dlookup t.br_by_ss K = some B) :
    PCInv K { t with br_by_ss := derase t.br_by_ss K } (dvalues B) := by
  have hndB := h.bucket_nd K B hB
  have hlss : ∀ K', dlookup (derase t.br_by_ss K) K' =
      if K' = K then none else dlookup t.br_by_ss K' := by
    intro K'
    by_cases hx : K' = K
    · subst hx
      rw [if_pos rfl]
      exact dlookup_derase_self h.ndss K'
    · rw [if_neg hx]
      exact dlookup_derase_ne _ _ _ (fun he => hx he.symm)
  have hment : ∀ tb ∈ dvalues B, dlookup t.br_by_id tb.brid = some tb ∧ K ∈ tb.ss_tuples := by
    intro tb htb
    obtain ⟨e, he, hetb⟩ := List.mem_map.mp htb
    obtain ⟨x, tbx⟩ := e
    cases hetb
    have hBe := dlookup_of_mem hndB he
    obtain ⟨hid, hKm⟩ := h.bucket_in_id K B hB x tbx hBe
    have hbx : tbx.brid = x := h.id_brid x tbx hid
    rw [hbx]
    exact ⟨hid, hKm⟩
  constructor
  case ndid => exact h.ndid
  case ndss => exact nodupKeys_derase h.ndss _
  case bucket_nd =>
    intro K' b hb
    rw [hlss] at hb
    by_cases hx : K' = K
    · rw [if_pos hx] at hb; cases hb
    · rw [if_neg hx] at hb
      exact h.bucket_nd K' b hb
  case bucket_ne =>
    intro K' b hb
    rw [hlss] at hb
    by_cases hx : K' = K
    · rw [if_pos hx] at hb; cases hb
    · rw [if_neg hx] at hb
      exact h.bucket_ne K' b hb
  case hK =>
    show dlookup (derase t.br_by_ss K) K = none
    rw [hlss, if_pos rfl]
  case pend_id => exact fun tb htb => (hment tb htb).1
  case pend_K => exact fun tb htb => (hment tb htb).2
  case pend_nd =>
    rw [dvalues_map_brid h hB]
    exact hndB
  case id_brid => exact h.id_brid
  case id_tuples_ne => exact h.id_tuples_ne
  case id_pending =>
    intro x tbx hx hKx
    have := h.id_in_buckets x tbx hx K hKx
    unfold entryLookup at this
    rw [hB] at this
    simp only [Option.some_bind] at this
    exact mem_dvalues_of_dlookup this
  case id_in_buckets =>
    intro x tbx hx K' hK' hKne
    have := h.id_in_buckets x tbx hx K' hK'
    unfold entryLookup at this ⊢
    show (dlookup (derase t.br_by_ss K) K').bind (fun b => dlookup b x) = some tbx
    rw [hlss, if_neg hKne]
    exact this
  case bucket_in_id =>
    intro K' b hb x tbx he
    rw [show dlookup ({ t with br_by_ss := derase t.br_by_ss K } :
        OldBuildrequestTracker).br_by_ss K' = dlookup (derase t.br_by_ss K) K' from rfl,
      hlss] at hb
    by_cases hx : K' = K
    · rw [if_pos hx] at hb; cases hb
    · rw [if_neg hx] at hb
      exact h.bucket_in_id K' b hb x tbx he

/-- When the pending list is exhausted the loop invariant gives back full
well-formedness. -/
theorem WFl_of_PCInv_nil {K : SSTuple} {t : OldBuildrequestTracker}
    (h : PCInv K t []) : WFl t := by
  constructor
  case ndid => exact h.ndid
  case ndss => exact h.ndss
  case bucket_nd => exact h.bucket_nd
  case bucket_ne => exact h.bucket_ne
  case id_brid => exact h.id_brid
  case id_tuples_ne => exact h.id_tuples_ne
  case id_in_buckets =>
    intro x tbx hx K' hK'
    have hKnot : K ∉ tbx.ss_tuples := fun hKx => by cases h.id_pending x tbx hx hKx
    exact h.id_in_buckets x tbx hx K' hK' (fun he => hKnot (he ▸ hK'))
  case bucket_in_id => exact h.bucket_in_id

/-- Full characterization of a successful `on_change`: precisely the requests
whose matched key-set contains the change's tuple are removed — from the
id-index and from every bucket — the rest are untouched, and the cancellation
callback fires exactly once per removed id. -/
theorem on_change_spec {t : OldBuildrequestTracker} (h : WFl t) (change : SourceStamp)
    {t' : OldBuildrequestTracker} {cancelled : List Nat}
    (hok : on_change t change = .ok (t', cancelled)) :
    WFl t' ∧
    (∀ x, x ∈ cancelled ↔
      ∃ tbx, dlookup t.br_by_id x = some tbx ∧ stampKey t change ∈ tbx.ss_tuples) ∧
    (∀ x ∈ cancelled,
      dlookup t'.br_by_id x = none ∧ ∀ K', entryLookup t' K' x = none) ∧
    (∀ x tbx, dlookup t.br_by_id x = some tbx → stampKey t change ∉ tbx.ss_tuples →
      dlookup t'.br_by_id x = some tbx ∧
      ∀ K', entryLookup t' K' x = entryLookup t K' x) ∧
    cancelled.Nodup := by
  unfold on_change at hok
  cases hbK : dlookup t.br_by_ss (stampKey t change) with
  | none =>
    simp only [hbK] at hok
    cases hok
    refine ⟨h, ?_, ?_, ?_, List.nodup_nil⟩
    · intro x
      simp only [List.not_mem_nil, false_iff]
      rintro ⟨tbx, hid, hKx⟩
      have := h.id_in_buckets x tbx hid _ hKx
      unfold entryLookup at this
      rw [hbK] at this
      cases this
    · intro x hx
      cases hx
    · intro x tbx hid _
      exact ⟨hid, fun K' => rfl⟩
  | some B =>
    simp only [hbK] at hok
    cases hpc : processCancelled (stampKey t change)
        { t with br_by_ss := derase t.br_by_ss (stampKey t change) } (dvalues B) with
    | error e =>
      rw [hpc] at hok
      cases hok
    | ok t2 =>
      rw [hpc] at hok
      cases hok
      have hinv := PCInv_init h hbK
      obtain ⟨hfin, hrem, hfr⟩ :=
        processCancelled_spec (stampKey t change) (dvalues B) _ t' hinv hpc
      have hbrids := dvalues_map_brid h hbK
      refine ⟨WFl_of_PCInv_nil hfin, ?_, ?_, ?_, h.bucket_nd _ B hbK⟩
      · intro x
        constructor
        · intro hx
          obtain ⟨tbx, htbx⟩ := exists_dlookup_of_mem_dkeys hx
          obtain ⟨hid, hKm⟩ := h.bucket_in_id _ B hbK x tbx htbx
          exact ⟨tbx, hid, hKm⟩
        · rintro ⟨tbx, hid, hKx⟩
          have := h.id_in_buckets x tbx hid _ hKx
          unfold entryLookup at this
          rw [hbK] at this
          simp only [Option.some_bind] at this
          exact mem_dkeys_of_dlookup this
      · intro x hx
        rw [← hbrids] at hx
        exact hrem x hx
      · intro x tbx hid hKnot
        have hx : x ∉ dkeys B := by
          intro hxk
          obtain ⟨tby, htby⟩ := exists_dlookup_of_mem_dkeys hxk
          obtain ⟨hid2, hKm⟩ := h.bucket_in_id _ B hbK x tby htby
          rw [hid] at hid2
          cases hid2
          exact hKnot hKm
        rw [← hbrids] at hx
        obtain ⟨hids, hbks⟩ := hfr x hx
        constructor
        · rw [hids]
          exact hid
        · intro K'
          rw [hbks K']
          unfold entryLookup
          show (dlookup (derase t.br_by_ss (stampKey t change)) K').bind
              (fun b => dlookup b x) =
            (dlookup t.br_by_ss K').bind (fun b => dlookup b x)
          by_cases hKK : K' = stampKey t change
          · subst hKK
            rw [dlookup_derase_self h.ndss, hbK]
            simp only [Option.none_bind, Option.some_bind]
            rw [hbrids] at hx
            rw [dlookup_eq_none_of_not_mem_dkeys hx]
          · rw [dlookup_derase_ne _ _ _ (fun he => hKK he.symm)]

/-- Removal never makes a missing bucket reappear. -/
theorem removeFromBuckets_preserves_none {brid : Nat} :
    ∀ (tups : List SSTuple) (m m' : BrBySS),
    removeFromBuckets m brid tups = .ok m' →
    ∀ K', dlookup m K' = none → dlookup m' K' = none
  | [], m, m', hok, K', hn => by
    rw [removeFromBuckets] at hok
    cases hok
    exact hn
  | tup :: rest, m, m', hok, K', hn => by
    rw [removeFromBuckets] at hok
    cases h0 : dlookup m tup with
    | none => simp [h0] at hok
    | some b0 =>
      simp only [h0] at hok
      by_cases hin : (dlookup b0 brid).isSome
      · rw [if_pos hin] at hok
        have hKtup : K' ≠ tup := fun he => by rw [he, h0] at hn; cases hn
        exact removeFromBuckets_preserves_none rest _ m' hok K'
          (by rw [dlookup_bucketRemove_ne _ _ hKtup]; exact hn)
      · rw [if_neg hin] at hok
        cases hok

/-- If some pending request has (beside the changed tuple) a key with no
bucket, the cancellation loop fails loudly. -/
theorem processCancelled_err (K : SSTuple) :
    ∀ (l : List TrackedBuildRequest) (t : OldBuildrequestTracker),
    (∃ tb ∈ l, K ∈ tb.ss_tuples ∧
      ∃ K' ∈ tb.ss_tuples, K' ≠ K ∧ dlookup t.br_by_ss K' = none) →
    (processCancelled K t l).isOk = false
  | [], t, hex => by
    obtain ⟨tb, htb, -⟩ := hex
    cases htb
  | tb0 :: rest, t, hex => by
    rw [processCancelled]
    by_cases hin : (dlookup t.br_by_id tb0.brid).isSome
    · rw [if_pos hin]
      obtain ⟨tb, htb, hKm, K', hK', hKne, hmiss⟩ := hex
      rcases List.mem_cons.mp htb with heq | hmem
      · subst heq
        have hlen : tb.ss_tuples.length ≠ 1 := by
          intro h1
          have := eq_singleton_of_mem_length_one hKm h1
          rw [this] at hK'
          rcases List.mem_cons.mp hK' with he | he
          · exact hKne he
          · cases he
        rw [if_neg hlen]
        have herr := @removeFromBuckets_err_of_missing tb.brid
          (tb.ss_tuples.filter (fun x => x ≠ K)) t.br_by_ss
          ⟨K', mem_filter_ne.mpr ⟨hK', hKne⟩, hmiss⟩
        cases hrob : removeFromOtherBuckets t.br_by_ss tb.brid K tb.ss_tuples with
        | error e => rfl
        | ok m2 =>
          exfalso
          have := (removeFromOtherBuckets_ok_iff tb.brid K tb.ss_tuples _ m2).mp hrob
          rw [this] at herr
          simp [Except.isOk, Except.toBool] at herr
      · by_cases hlen : tb0.ss_tuples.length = 1
        · rw [if_pos hlen]
          exact processCancelled_err K rest _ ⟨tb, hmem, hKm, K', hK', hKne, hmiss⟩
        · rw [if_neg hlen]
          cases hrob : removeFromOtherBuckets t.br_by_ss tb0.brid K tb0.ss_tuples with
          | error e => rfl
          | ok m2 =>
            have hrfb := (removeFromOtherBuckets_ok_iff tb0.brid K tb0.ss_tuples _ m2).mp hrob
            exact processCancelled_err K rest _
              ⟨tb, hmem, hKm, K', hK', hKne,
                removeFromBuckets_preserves_none _ _ m2 hrfb K' hmiss⟩
    · rw [if_neg hin]
      rfl

/-- `on_change` fails loudly when a request registered under the changed tuple
has another key whose bucket is missing. -/
theorem on_change_err_of_missing_bucket {t : OldBuildrequestTracker}
    {change : SourceStamp} {B : List (Nat × TrackedBuildRequest)} {brid : Nat}
    {tb : TrackedBuildRequest} {K' : SSTuple}
    (hB : dlookup t.br_by_ss (stampKey t change) = some B)
    (hbx : dlookup B brid = some tb)
    (hKin : stampKey t change ∈ tb.ss_tuples)
    (hK' : K' ∈ tb.ss_tuples)
    (hmiss : dlookup t.br_by_ss K' = none) :
    (on_change t change).isOk = false := by
  have hKne : K' ≠ stampKey t change := by
    intro he
    rw [he, hB] at hmiss
    cases hmiss
  unfold on_change
  simp only [hB]
  have herr := processCancelled_err (stampKey t change) (dvalues B)
    { t with br_by_ss := derase t.br_by_ss (stampKey t change) }
    ⟨tb, mem_dvalues_of_dlookup hbx, hKin, K', hK', hKne,
      by
        show dlookup (derase t.br_by_ss (stampKey t change)) K' = none
        rw [dlookup_derase_ne _ _ _ (fun he => hKne he.symm)]
        exact hmiss⟩
  cases hpc : processCancelled (stampKey t change)
      { t with br_by_ss := derase t.br_by_ss (stampKey t change) } (dvalues B) with
  | error e =>
    simp only [hpc]
    rfl
  | ok t2 =>
    rw [hpc] at herr
    simp [Except.isOk, Except.toBool] at herr

theorem WFl_on_change {t t' : OldBuildrequestTracker} {c : SourceStamp} {cs : List Nat}
    (h : WFl t) (hok : on_change t c = .ok (t', cs)) : WFl t' :=
  (on_change_spec h c hok).1

theorem WFl_runOps :
    ∀ (ops : List TrackerOp) (t t' : OldBuildrequestTracker),
    WFl t → runOps t ops = some t' → WFl t'
  | [], t, t', h, hrun => by
    rw [runOps] at hrun
    cases hrun
    exact h
  | op :: rest, t, t', h, hrun => by
    cases op with
    | new brid builder_name sourcestamps =>
      rw [runOps] at hrun
      by_cases hf : (dlookup t.br_by_id brid).isSome
      · rw [if_pos hf] at hrun
        cases hrun
      · rw [if_neg hf] at hrun
        have hfresh : dlookup t.br_by_id brid = none := by
          cases hl : dlookup t.br_by_id brid with
          | none => rfl
          | some tb =>
            rw [hl] at hf
            simp at hf
        exact WFl_runOps rest _ t' (WFl_on_new h brid builder_name sourcestamps hfresh) hrun
    | complete brid =>
      rw [runOps] at hrun
      cases hoc : on_complete_buildrequest t brid with
      | error e =>
        simp only [hoc] at hrun
        cases hrun
      | ok t2 =>
        simp only [hoc] at hrun
        exact WFl_runOps rest t2 t' (WFl_on_complete h hoc) hrun
    | change c =>
      rw [runOps] at hrun
      cases hoc : on_change t c with
      | error e =>
        simp only [hoc] at hrun
        cases hrun
      | ok p =>
        obtain ⟨t2, cs⟩ := p
        simp only [hoc] at hrun
        exact WFl_runOps rest t2 t' (WFl_on_change h hoc) hrun

theorem on_new_fields (t : OldBuildrequestTracker) (brid : Nat) (b : String)
    (ss : List SourceStamp) :
    (on_new_buildrequest t brid b ss).filter = t.filter ∧
    (on_new_buildrequest t brid b ss).branch_key = t.branch_key := by
  unfold on_new_buildrequest
  cases collectMatched t.filter b ss with
  | none => exact ⟨rfl, rfl⟩
  | some ms => by_cases h : ms.isEmpty <;> simp [h]

theorem on_new_id_frame (t : OldBuildrequestTracker) (brid : Nat) (b : String)
    (ss : List SourceStamp) (x : Nat) (hx : x ≠ brid) :
    dlookup (on_new_buildrequest t brid b ss).br_by_id x = dlookup t.br_by_id x := by
  unfold on_new_buildrequest
  cases collectMatched t.filter b ss with
  | none => rfl
  | some ms =>
    by_cases h : ms.isEmpty
    · simp only [h, if_true]
    · simp only [h, Bool.false_eq_true, if_false]
      exact dlookup_dinsert_ne _ _ _ _ (fun he => hx he.symm)

theorem reconfigStep_fields (t : OldBuildrequestTracker)
    (e : Nat × String × List SourceStamp) :
    (reconfigStep t e).filter = t.filter ∧
    (reconfigStep t e).branch_key = t.branch_key := by
  unfold reconfigStep
  by_cases h : is_buildrequest_tracked t e.1
  · rw [if_pos h]
    exact ⟨rfl, rfl⟩
  · rw [if_neg h]
    exact on_new_fields t e.1 e.2.1 e.2.2

theorem reconfigStep_preserves_some {t : OldBuildrequestTracker}
    {x : Nat} {tb : TrackedBuildRequest} (hx : dlookup t.br_by_id x = some tb)
    (e : Nat × String × List SourceStamp) :
    dlookup (reconfigStep t e).br_by_id x = some tb := by
  unfold reconfigStep
  by_cases h : is_buildrequest_tracked t e.1
  · rw [if_pos h]
    exact hx
  · rw [if_neg h]
    have hne : x ≠ e.1 := by
      intro he
      rw [is_buildrequest_tracked, ← he, hx] at h
      exact h rfl
    rw [on_new_id_frame t e.1 e.2.1 e.2.2 x hne]
    exact hx

theorem foldl_reconfigStep_preserves_some :
    ∀ (l : List (Nat × String × List SourceStamp)) (t : OldBuildrequestTracker)
    (x : Nat) (tb : TrackedBuildRequest), dlookup t.br_by_id x = some tb →
    dlookup (l.foldl reconfigStep t).br_by_id x = some tb
  | [], _, _, _, hx => hx
  | e :: rest, _, x, tb, hx =>
    foldl_reconfigStep_preserves_some rest _ x tb (reconfigStep_preserves_some hx e)

theorem foldl_reconfigStep_fields :
    ∀ (l : List (Nat × String × List SourceStamp)) (t : OldBuildrequestTracker),
    (l.foldl reconfigStep t).filter = t.filter ∧
    (l.foldl reconfigStep t).branch_key = t.branch_key
  | [], t => ⟨rfl, rfl⟩
  | e :: rest, t => by
    obtain ⟨h1, h2⟩ := foldl_reconfigStep_fields rest (reconfigStep t e)
    obtain ⟨h3, h4⟩ := reconfigStep_fields t e
    exact ⟨h1.trans h3, h2.trans h4⟩

theorem foldl_reconfigStep_preserves_tracked
    (l : List (Nat × String × List SourceStamp)) (t : OldBuildrequestTracker)
    (x : Nat) (hx : is_buildrequest_tracked t x = true) :
    is_buildrequest_tracked (l.foldl reconfigStep t) x = true := by
  rw [is_buildrequest_tracked] at hx ⊢
  obtain ⟨tb, htb⟩ := Option.isSome_iff_exists.mp hx
  rw [foldl_reconfigStep_preserves_some l t x tb htb]
  rfl

/-- After the reconfiguration loop, each incomplete request is either tracked
or was rejected by the (new) filter configuration. -/
theorem foldl_reconfigStep_elements {fs : OldBuildFilterSet} :
    ∀ (l : List (Nat × String × List SourceStamp)) (t : OldBuildrequestTracker),
    t.filter = fs →
    ∀ e ∈ l, is_buildrequest_tracked (l.foldl reconfigStep t) e.1 = true ∨
      collectMatched fs e.2.1 e.2.2 = none ∨ collectMatched fs e.2.1 e.2.2 = some []
  | [], t, ht, e, he => absurd he (List.not_mem_nil e)
  | e0 :: rest, t, ht, e, he => by
    have hfields := reconfigStep_fields t e0
    rcases List.mem_cons.mp he with heq | hmem
    · subst heq
      by_cases htr : is_buildrequest_tracked t e.1
      · left
        rw [List.foldl_cons]
        apply foldl_reconfigStep_preserves_tracked
        rw [reconfigStep, if_pos htr]
        exact htr
      · rw [List.foldl_cons]
        cases hcm : collectMatched t.filter e.2.1 e.2.2 with
        | none =>
          right
          left
          rw [← ht]
          exact hcm
        | some ms =>
          by_cases hms : ms.isEmpty
          · right
            right
            rw [← ht]
            rw [show ms = [] from List.isEmpty_iff.mp hms] at hcm
            exact hcm
          · left
            apply foldl_reconfigStep_preserves_tracked
            rw [reconfigStep, if_neg htr]
            rw [is_buildrequest_tracked]
            rw [on_new_eq_of_matched hcm
              (fun h0 => by rw [h0] at hms; exact hms rfl)]
            show (dlookup (dinsert t.br_by_id e.1 ⟨e.1, ms.map (stampKey t)⟩)
              e.1).isSome = true
            rw [dlookup_dinsert_self]
            rfl
    · rw [List.foldl_cons]
      exact foldl_reconfigStep_elements rest (reconfigStep t e0)
        (hfields.1.trans ht) e hmem

/-- A second pass over requests that are all tracked-or-rejected is the
identity. -/
theorem foldl_reconfigStep_id {fs : OldBuildFilterSet} :
    ∀ (l : List (Nat × String × List SourceStamp)) (r : OldBuildrequestTracker),
    r.filter = fs →
    (∀ e ∈ l, is_buildrequest_tracked r e.1 = true ∨
      collectMatched fs e.2.1 e.2.2 = none ∨ collectMatched fs e.2.1 e.2.2 = some []) →
    l.foldl reconfigStep r = r
  | [], r, _, _ => rfl
  | e0 :: rest, r, hf, hall => by
    have hstep : reconfigStep r e0 = r := by
      rcases hall e0 (List.mem_cons_self _ _) with htr | hcm | hcm
      · rw [reconfigStep, if_pos htr]
      · rw [reconfigStep]
        by_cases htr : is_buildrequest_tracked r e0.1
        · rw [if_pos htr]
        · rw [if_neg htr]
          exact on_new_eq_of_none (by rw [hf]; exact hcm)
      · rw [reconfigStep]
        by_cases htr : is_buildrequest_tracked r e0.1
        · rw [if_pos htr]
        · rw [if_neg htr]
          exact on_new_eq_of_empty (by rw [hf]; exact hcm)
    rw [List.foldl_cons, hstep]
    exact foldl_reconfigStep_id rest r hf
      (fun e he => hall e (List.mem_cons_of_mem _ he))

theorem reconfig_self {r : OldBuildrequestTracker} {fs : OldBuildFilterSet}
    {bk : SourceStamp → String} (hf : r.filter = fs) (hb : r.branch_key = bk) :
    reconfig r fs bk = r := by
  cases r
  cases hf
  cases hb
  rfl

end OldBuildrequestTracker

/-! ### Claim theorems for the build-request tracker -/
/-- C1: for a change event whose SourceStampKey is K, `on_change` removes
exactly the tracked build requests whose matched key-set contains K — each is
deleted from the id-index and from every key bucket it is registered under,
requests whose key-set does not contain K remain tracked unchanged, and the
cancellation callback is invoked exactly once per removed request id. -/
theorem C1_on_change_removes_exactly_matching
    (t : OldBuildrequestTracker) (change : SourceStamp)
    (t' : OldBuildrequestTracker) (cancelled : List Nat)
    (hwf : WF t) (hok : on_change t change = .ok (t', cancelled)) :
    (∀ x, x ∈ cancelled ↔
      ∃ tbx, dlookup t.br_by_id x = some tbx ∧ stampKey t change ∈ tbx.ss_tuples) ∧
    (∀ x ∈ cancelled,
      dlookup t'.br_by_id x = none ∧ ∀ K', entryLookup t' K' x = none) ∧
    (∀ x tbx, dlookup t.br_by_id x = some tbx → stampKey t change ∉ tbx.ss_tuples →
      dlookup t'.br_by_id x = some tbx ∧
      ∀ K', entryLookup t' K' x = entryLookup t K' x) ∧
    cancelled.Nodup := by
  have h := (WF_iff_WFl t).mp hwf
  obtain ⟨-, h1, h2, h3, h4⟩ := on_change_spec h change hok
  exact ⟨h1, h2, h3, h4⟩

theorem C1_witness :
    WF exTracker ∧
    on_change exTracker exStamp1 = .ok (exTrackerEmpty, [1, 2]) ∧
    ((∀ x, x ∈ [1, 2] ↔
      ∃ tbx, dlookup exTracker.br_by_id x = some tbx ∧
        stampKey exTracker exStamp1 ∈ tbx.ss_tuples) ∧
    (∀ x ∈ [1, 2], dlookup exTrackerEmpty.br_by_id x = none ∧
      ∀ K', entryLookup exTrackerEmpty K' x = none) ∧
    (∀ x tbx, dlookup exTracker.br_by_id x = some tbx →
      stampKey exTracker exStamp1 ∉ tbx.ss_tuples →
      dlookup exTrackerEmpty.br_by_id x = some tbx ∧
      ∀ K', entryLookup exTrackerEmpty K' x = entryLookup exTracker K' x) ∧
    ([1, 2] : List Nat).Nodup) :=
  ⟨by decide, rfl,
    C1_on_change_removes_exactly_matching exTracker exStamp1 exTrackerEmpty [1, 2]
      (by decide) rfl⟩

/-- C2: after every finite sequence of `on_new_buildrequest`,
`on_complete_buildrequest` and `on_change` events dispatched one at a time,
each new request id distinct from the currently tracked ids, invariants I1
and I2 hold. -/
theorem C2_invariants_hold_after_event_sequences
    (fs : OldBuildFilterSet) (bk : SourceStamp → String) (ops : List TrackerOp)
    (t' : OldBuildrequestTracker)
    (hrun : runOps (OldBuildrequestTracker.init fs bk) ops = some t') :
    InvariantI1 t' ∧ InvariantI2 t' := by
  have h0 : WFl (OldBuildrequestTracker.init fs bk) :=
    (WF_iff_WFl _).mp (WF_init fs bk)
  have h' := WFl_runOps ops _ t' h0 hrun
  exact invariants_of_WF ((WF_iff_WFl t').mpr h')

theorem C2_witness :
    runOps (OldBuildrequestTracker.init exFilterSet exBranchKey) exOps = some exFinal ∧
    (InvariantI1 exFinal ∧ InvariantI2 exFinal) :=
  ⟨rfl, C2_invariants_hold_after_event_sequences exFilterSet exBranchKey exOps exFinal rfl⟩

/-- C3: `on_new_buildrequest` is all-or-nothing — a stamp with a null branch
prevents any tracking and leaves both indices unchanged even when other
stamps match; when no stamp matches the builder's filters nothing is tracked;
otherwise the id is registered in the id-index and in the bucket of the
SourceStampKey of every matching stamp. -/
theorem C3_on_new_all_or_nothing
    (t : OldBuildrequestTracker) (brid : Nat) (builder_name : String)
    (stamps : List SourceStamp) :
    ((∃ ss ∈ stamps, ss.branch = none) →
      on_new_buildrequest t brid builder_name stamps = t) ∧
    ((∀ ss ∈ stamps, t.filter.is_matched builder_name ss = false) →
      on_new_buildrequest t brid builder_name stamps = t) ∧
    (∀ ms, (∀ ss ∈ stamps, ss.branch ≠ none) →
      ms = stamps.filter (fun ss => t.filter.is_matched builder_name ss) → ms ≠ [] →
      dlookup (on_new_buildrequest t brid builder_name stamps).br_by_id brid =
        some ⟨brid, ms.map (stampKey t)⟩ ∧
      ∀ ss ∈ ms, entryLookup (on_new_buildrequest t brid builder_name stamps)
        (stampKey t ss) brid = some ⟨brid, ms.map (stampKey t)⟩) := by
  refine ⟨?_, ?_, ?_⟩
  · rintro ⟨ss, hss, hbr⟩
    apply on_new_eq_of_none
    rw [collectMatched_eq]
    rw [if_pos]
    rw [List.any_eq_true]
    exact ⟨ss, hss, by rw [hbr]; rfl⟩
  · intro hnomatch
    have hfil : stamps.filter (fun ss => t.filter.is_matched builder_name ss) = [] := by
      rw [List.filter_eq_nil_iff]
      intro ss hss
      rw [hnomatch ss hss]
      simp
    by_cases hany : stamps.any (fun ss => ss.branch.isNone)
    · exact on_new_eq_of_none (by rw [collectMatched_eq, if_pos hany])
    · exact on_new_eq_of_empty (by rw [collectMatched_eq, if_neg hany, hfil])
  · intro ms hnonull hms hne
    have hany : stamps.any (fun ss => ss.branch.isNone) = false := by
      rw [List.any_eq_false]
      intro ss hss
      have := hnonull ss hss
      cases hbr : ss.branch with
      | none => exact absurd hbr this
      | some b => simp
    have hcm : collectMatched t.filter builder_name stamps = some ms := by
      rw [collectMatched_eq, hany]
      simp only [Bool.false_eq_true, if_false]
      rw [hms]
    rw [on_new_eq_of_matched hcm hne]
    constructor
    · exact dlookup_dinsert_self _ _ _
    · intro ss hss
      unfold entryLookup
      have hmem : stampKey t ss ∈ ms.map (stampKey t) := List.mem_map.mpr ⟨ss, hss, rfl⟩
      rw [show ({ t with
          br_by_id := dinsert t.br_by_id brid ⟨brid, ms.map (stampKey t)⟩,
          br_by_ss := addToBuckets t.br_by_ss ⟨brid, ms.map (stampKey t)⟩
            (ms.map (stampKey t)) } : OldBuildrequestTracker).br_by_ss =
        addToBuckets t.br_by_ss ⟨brid, ms.map (stampKey t)⟩ (ms.map (stampKey t)) from rfl]
      rw [addToBuckets_dlookup, if_pos hmem]
      simp only [Option.some_bind]
      exact dlookup_dinsert_self _ _ _

theorem C3_witness :
    ((∃ ss ∈ [exStamp1, exStampNull], ss.branch = none) ∧
      on_new_buildrequest exTrackerEmpty 7 "builder1" [exStamp1, exStampNull] =
        exTrackerEmpty) ∧
    ((∀ ss ∈ [exStamp1], exTrackerEmpty.filter.is_matched "builder2" ss = false) ∧
      on_new_buildrequest exTrackerEmpty 7 "builder2" [exStamp1] = exTrackerEmpty) ∧
    (dlookup (on_new_buildrequest exTrackerEmpty 7 "builder1" [exStamp1]).br_by_id 7 =
        some ⟨7, [exKey1]⟩ ∧
      ∀ ss ∈ [exStamp1], entryLookup (on_new_buildrequest exTrackerEmpty 7 "builder1"
        [exStamp1]) (stampKey exTrackerEmpty ss) 7 = some ⟨7, [exKey1]⟩) := by
  refine ⟨⟨?_, ?_⟩, ⟨?_, ?_⟩, ?_⟩
  · exact ⟨exStampNull, by simp [exStampNull], rfl⟩
  · exact (C3_on_new_all_or_nothing exTrackerEmpty 7 "builder1"
      [exStamp1, exStampNull]).1 ⟨exStampNull, by simp [exStampNull], rfl⟩
  · intro ss hss
    rfl
  · exact (C3_on_new_all_or_nothing exTrackerEmpty 7 "builder2" [exStamp1]).2.1
      (fun ss hss => rfl)
  · exact (C3_on_new_all_or_nothing exTrackerEmpty 7 "builder1" [exStamp1]).2.2
      [exStamp1] (by decide) (by decide) (by decide)

/-- C4: whenever removal of a tracked build request — by
`on_complete_buildrequest`, or by `on_change` for the request's other keys —
encounters a key of that request whose bucket is missing from the key-index,
the operation raises an error rather than silently continuing. -/
theorem C4_missing_bucket_fails_loudly (t : OldBuildrequestTracker) :
    (∀ brid tb K, dlookup t.br_by_id brid = some tb → K ∈ tb.ss_tuples →
      dlookup t.br_by_ss K = none →
      (on_complete_buildrequest t brid).isOk = false) ∧
    (∀ change B brid tb K',
      dlookup t.br_by_ss (stampKey t change) = some B →
      dlookup B brid = some tb → stampKey t change ∈ tb.ss_tuples →
      K' ∈ tb.ss_tuples → dlookup t.br_by_ss K' = none →
      (on_change t change).isOk = false) :=
  ⟨fun _ _ _ hid hK hmiss => on_complete_err_of_missing_bucket hid hK hmiss,
   fun _ _ _ _ _ hB hbx hKin hK' hmiss =>
     on_change_err_of_missing_bucket hB hbx hKin hK' hmiss⟩

theorem C4_witness :
    (dlookup exCorrupt.br_by_id 1 = some exTB1 ∧ exKey2 ∈ exTB1.ss_tuples ∧
      dlookup exCorrupt.br_by_ss  exKey2 = none ∧
      (on_complete_buildrequest exCorrupt 1).isOk = false) ∧
    (dlookup exCorrupt.br_by_ss (stampKey exCorrupt exStamp1) =
        some [(1, exTB1)] ∧
      dlookup [(1, exTB1)] 1 = some exTB1 ∧
      stampKey exCorrupt exStamp1 ∈ exTB1.ss_tuples ∧
      exKey2 ∈ exTB1.ss_tuples ∧
      dlookup exCorrupt.br_by_ss exKey2 = none ∧
      (on_change exCorrupt exStamp1).isOk = false) :=
  ⟨⟨by decide, by decide, by decide,
    (C4_missing_bucket_fails_loudly exCorrupt).1 1 exTB1 exKey2
      (by decide) (by decide) (by decide)⟩,
   ⟨rfl, by decide, by decide, by decide, by decide,
    (C4_missing_bucket_fails_loudly exCorrupt).2 exStamp1 [(1, exTB1)] 1 exTB1 exKey2
      rfl (by decide) (by decide) (by decide) (by decide)⟩⟩

/-- C10: completing a build request whose id is not in the id-index returns
normally and leaves both indices completely unchanged — a silent no-op, in
contrast to the loud failure for a missing bucket of a tracked request. -/
theorem C10_complete_unknown_id_noop (t : OldBuildrequestTracker) (brid : Nat)
    (h : dlookup t.br_by_id brid = none) :
    on_complete_buildrequest t brid = .ok t :=
  on_complete_eq_of_untracked h

theorem C10_witness :
    dlookup exTracker.br_by_id 99 = none ∧
    on_complete_buildrequest exTracker 99 = .ok exTracker :=
  ⟨by decide, C10_complete_unknown_id_noop exTracker 99 (by decide)⟩

theorem takeWhile_all_append {α : Type} {p : α → Bool} {x : List α}
    (hx : ∀ a ∈ x, p a = true) (t : List α) :
    (x ++ t).takeWhile p = x ++ t.takeWhile p := by
  induction x with
  | nil => rfl
  | cons a rest ih =>
    rw [List.cons_append, List.takeWhile_cons_of_pos (hx a (List.mem_cons_self _ _))]
    rw [ih (fun b hb => hx b (List.mem_cons_of_mem _ hb)), List.cons_append]

theorem dropWhile_all_append {α : Type} {p : α → Bool} {x : List α}
    (hx : ∀ a ∈ x, p a = true) (t : List α) :
    (x ++ t).dropWhile p = t.dropWhile p := by
  induction x with
  | nil => rfl
  | cons a rest ih =>
    rw [List.cons_append, List.dropWhile_cons_of_pos (hx a (List.mem_cons_self _ _))]
    exact ih (fun b hb => hx b (List.mem_cons_of_mem _ hb))

/-- Parsing a string with the prefix form recovers the two groups. -/
theorem matchChangesPattern_of_form (x y : List Char) (c : Char) (rest : List Char)
    (hx : x ≠ []) (hy : y ≠ []) (hxd : ∀ a ∈ x, a.isDigit = true)
    (hyd : ∀ a ∈ y, a.isDigit = true) (hc : c.isDigit = true) :
    matchChangesPattern (refsChangesLit ++ x ++ '/' :: (y ++ '/' :: (c :: rest))) =
      some (x, y) := by
  have hpre : refsChangesLit.isPrefixOf
      (refsChangesLit ++ (x ++ '/' :: (y ++ '/' :: (c :: rest)))) = true :=
    List.isPrefixOf_iff_prefix.mpr (List.prefix_append _ _)
  have hslash : ('/' : Char).isDigit = false := rfl
  have hx' : x.isEmpty = false := by
    cases hxe : x.isEmpty
    · rfl
    · exact absurd (List.isEmpty_iff.mp hxe) hx
  have hy' : y.isEmpty = false := by
    cases hye : y.isEmpty
    · rfl
    · exact absurd (List.isEmpty_iff.mp hye) hy
  rw [matchChangesPattern, List.append_assoc, if_pos hpre, List.drop_left]
  rw [takeWhile_all_append hxd, dropWhile_all_append hxd]
  rw [List.takeWhile_cons_of_neg (by rw [hslash]; simp)]
  rw [List.dropWhile_cons_of_neg (by rw [hslash]; simp)]
  rw [List.append_nil, if_neg (by rw [hx']; simp)]
  show (if ((y ++ '/' :: (c :: rest)).takeWhile Char.isDigit).isEmpty = true then none
    else
      match (y ++ '/' :: (c :: rest)).dropWhile Char.isDigit with
      | '/' :: r4 =>
        if (r4.takeWhile Char.isDigit).isEmpty = true then none
        else some (x, (y ++ '/' :: (c :: rest)).takeWhile Char.isDigit)
      | _ => none) = some (x, y)
  rw [takeWhile_all_append hyd, dropWhile_all_append hyd]
  rw [List.takeWhile_cons_of_neg (by rw [hslash]; simp)]
  rw [List.dropWhile_cons_of_neg (by rw [hslash]; simp)]
  rw [List.append_nil, if_neg (by rw [hy']; simp)]
  show (if ((c :: rest).takeWhile Char.isDigit).isEmpty = true then none
    else some (x, y)) = some (x, y)
  rw [List.takeWhile_cons_of_pos hc]
  rw [if_neg (by simp)]

/-- A successful parse exhibits the prefix form. -/
theorem hasForm_of_matchChangesPattern {s : List Char} {x y : List Char}
    (h : matchChangesPattern s = some (x, y)) : HasChangesPrefixForm s := by
  rw [matchChangesPattern] at h
  split at h
  case isFalse => cases h
  case isTrue hpre =>
    obtain ⟨rest0, hs⟩ := List.isPrefixOf_iff_prefix.mp hpre
    have hdrop : s.drop refsChangesLit.length = rest0 := by
      rw [← hs, List.drop_left]
    rw [hdrop] at h
    split at h
    · cases h
    case isFalse hxe =>
      split at h
      case h_2 => cases h
      case h_1 r2 heq1 =>
        split at h
        · cases h
        case isFalse hye =>
          split at h
          case h_2 => cases h
          case h_1 r4 heq3 =>
            split at h
            case isTrue => cases h
            case isFalse hr4e =>
              cases h
              cases hr4 : r4 with
              | nil =>
                rw [hr4] at hr4e
                exact absurd rfl hr4e
              | cons c4 r5 =>
                have hc4 : c4.isDigit = true := by
                  by_contra hc4
                  rw [hr4, List.takeWhile_cons_of_neg hc4] at hr4e
                  exact hr4e rfl
                refine ⟨rest0.takeWhile Char.isDigit, r2.takeWhile Char.isDigit,
                  c4, r5, ?_, ?_,
                  fun a ha => List.mem_takeWhile_imp ha,
                  fun a ha => List.mem_takeWhile_imp ha, hc4, ?_⟩
                · intro he
                  rw [he] at hxe
                  exact hxe rfl
                · intro he
                  rw [he] at hye
                  exact hye rfl
                · have hr2d : ('/' : Char) :: r2 =
                      '/' :: (r2.takeWhile Char.isDigit ++ '/' :: (c4 :: r5)) := by
                    congr 1
                    conv_lhs => rw [← List.takeWhile_append_dropWhile Char.isDigit r2]
                    rw [heq3, hr4]
                  have hdecomp : rest0 = rest0.takeWhile Char.isDigit ++
                      '/' :: (r2.takeWhile Char.isDigit ++ '/' :: (c4 :: r5)) := by
                    conv_lhs =>
                      rw [← List.takeWhile_append_dropWhile Char.isDigit rest0]
                    rw [heq1, hr2d]
                  rw [← hs]
                  conv_lhs => rw [hdecomp]
                  rw [List.append_assoc]

theorem getLast?_mem_of_ne_nil {α : Type} {r : List α} (h : r ≠ []) :
    ∃ c, r.getLast? = some c ∧ c ∈ r := by
  induction r with
  | nil => exact absurd rfl h
  | cons a rest ih =>
    cases rest with
    | nil => exact ⟨a, rfl, List.mem_cons_self _ _⟩
    | cons b rest2 =>
      obtain ⟨c, hc, hm⟩ := ih (by simp)
      exact ⟨c, by rw [List.getLast?_cons_cons]; exact hc, List.mem_cons_of_mem _ hm⟩

/-- A branch of the claimed exact form ends in a digit. -/
theorem isFull_last_digit {s : List Char} (h : IsFullChangesForm s) :
    ∃ c, s.getLast? = some c ∧ c.isDigit = true := by
  obtain ⟨x, y, r, hx, hy, hr, hxd, hyd, hrd, hs⟩ := h
  subst hs
  obtain ⟨c, hc, hcm⟩ := getLast?_mem_of_ne_nil hr
  refine ⟨c, ?_, hrd c hcm⟩
  rw [show refsChangesLit ++ x ++ '/' :: (y ++ '/' :: r) =
      (refsChangesLit ++ x ++ '/' :: y ++ ['/']) ++ r from by simp]
  rw [List.getLast?_append_of_ne_nil _ hr]
  exact hc

/-- C8 counterexample: `refs/changes/1/2/3x` is not of the form
`refs/changes/<X>/<Y>/<rev>` with numeric `rev` (its last character is not a
digit), yet `_default_branch_key` does not return it unchanged — the regex is
unanchored at the end, so it still collapses the string to
`refs/changes/1/2`.  This falsifies the claim's "returns every other branch
string unchanged". -/
theorem C8_counterexample :
    ¬ IsFullChangesForm exGerritOdd ∧
    default_branch_key exGerritOdd ≠ exGerritOdd ∧
    default_branch_key exGerritOdd = "refs/changes/1/2".toList := by
  refine ⟨?_, by decide, by decide⟩
  intro h
  obtain ⟨c, hc, hd⟩ := isFull_last_digit h
  rw [show exGerritOdd.getLast? = some 'x' from rfl] at hc
  cases hc
  exact absurd hd (by decide)

/-- C8 (amended): the default branch-key function maps every branch string
that begins with `refs/changes/<X>/<Y>/<digit>` (X, Y nonempty digit strings;
anything may follow the digit, so in particular every string exactly of the
form `refs/changes/<X>/<Y>/<rev>` with numeric rev) to `refs/changes/<X>/<Y>`,
and returns every branch string without such a prefix unchanged. -/
theorem C8_branch_key_collapses_changes_prefix :
    (∀ (x y : List Char) (c : Char) (rest : List Char), x ≠ [] → y ≠ [] →
      (∀ a ∈ x, a.isDigit = true) → (∀ a ∈ y, a.isDigit = true) → c.isDigit = true →
      default_branch_key (refsChangesLit ++ x ++ '/' :: (y ++ '/' :: (c :: rest))) =
        refsChangesLit ++ x ++ '/' :: y) ∧
    (∀ s, ¬ HasChangesPrefixForm s → default_branch_key s = s) := by
  constructor
  · intro x y c rest hx hy hxd hyd hc
    rw [default_branch_key, matchChangesPattern_of_form x y c rest hx hy hxd hyd hc]
  · intro s hnot
    cases hm : matchChangesPattern s with
    | none => rw [default_branch_key, hm]
    | some p =>
      obtain ⟨x, y⟩ := p
      exact absurd (hasForm_of_matchChangesPattern hm) hnot

theorem C8_witness :
    default_branch_key ("refs/changes/12/34/5".toList) = "refs/changes/12/34".toList ∧
    default_branch_key ("main".toList) = "main".toList := by
  constructor
  · exact C8_branch_key_collapses_changes_prefix.1 ['1', '2'] ['3', '4'] '5' []
      (by decide) (by decide) (by decide) (by decide) (by decide)
  · refine C8_branch_key_collapses_changes_prefix.2 _ ?_
    rintro ⟨x, y, c, rest, hx, hy, hxd, hyd, hc, hs⟩
    have hs' : (['m', 'a', 'i', 'n'] : List Char) =
        refsChangesLit ++ x ++ '/' :: (y ++ '/' :: (c :: rest)) := hs
    rw [show (refsChangesLit : List Char) =
      ['r', 'e', 'f', 's', '/', 'c', 'h', 'a', 'n', 'g', 'e', 's', '/'] from rfl] at hs'
    simp at hs'

/-- C9: reconfiguring the canceller never re-evaluates or modifies an already
tracked build request — every id-index entry survives any reconfiguration
unchanged — and reconfiguring twice in a row with identical filters,
branch-key function and incomplete-request list is a no-op the second time. -/
theorem C9_reconfig_noop_on_tracked
    (t : OldBuildrequestTracker) (fs : OldBuildFilterSet) (bk : SourceStamp → String)
    (incomplete : List (Nat × String × List SourceStamp)) :
    (∀ brid tb, dlookup t.br_by_id brid = some tb →
      dlookup (reconfigService t fs bk incomplete).br_by_id brid = some tb) ∧
    reconfigService (reconfigService t fs bk incomplete) fs bk incomplete =
      reconfigService t fs bk incomplete := by
  constructor
  · intro brid tb htb
    exact foldl_reconfigStep_preserves_some incomplete _ brid tb htb
  · have hfields := foldl_reconfigStep_fields incomplete (reconfig t fs bk)
    have hf : (reconfigService t fs bk incomplete).filter = fs := hfields.1
    have hb : (reconfigService t fs bk incomplete).branch_key = bk := hfields.2
    rw [show reconfigService (reconfigService t fs bk incomplete) fs bk incomplete =
        incomplete.foldl reconfigStep
          (reconfig (reconfigService t fs bk incomplete) fs bk) from rfl]
    rw [reconfig_self hf hb]
    exact foldl_reconfigStep_id incomplete _ hf
      (foldl_reconfigStep_elements incomplete (reconfig t fs bk) rfl)

theorem C9_witness :
    dlookup (OldBuildrequestTracker.reconfigService exTracker exFilterSet exBranchKey
      [(5, "builder1", [exStamp2]), (1, "b", [])]).br_by_id 1 = some exTB1 ∧
    OldBuildrequestTracker.reconfigService
      (OldBuildrequestTracker.reconfigService exTracker exFilterSet exBranchKey
        [(5, "builder1", [exStamp2]), (1, "b", [])]) exFilterSet exBranchKey
      [(5, "builder1", [exStamp2]), (1, "b", [])] =
    OldBuildrequestTracker.reconfigService exTracker exFilterSet exBranchKey
      [(5, "builder1", [exStamp2]), (1, "b", [])] :=
  ⟨(C9_reconfig_noop_on_tracked exTracker exFilterSet exBranchKey
      [(5, "builder1", [exStamp2]), (1, "b", [])]).1 1 exTB1 (by decide),
   (C9_reconfig_noop_on_tracked exTracker exFilterSet exBranchKey
      [(5, "builder1", [exStamp2]), (1, "b", [])]).2⟩

theorem periodicTicks_getD_zero (interval start : Nat) (ds : List Nat) :
    (periodicTicks interval start ds).getD 0 0 = start := by
  cases ds <;> rfl

theorem periodicTicks_length (interval start : Nat) :
    ∀ ds : List Nat, (periodicTicks interval start ds).length = ds.length + 1 := by
  intro ds
  induction ds generalizing start with
  | nil => rfl
  | cons d rest ih =>
    rw [periodicTicks, List.length_cons, ih, List.length_cons]

/-- C5 counterexample: with interval 10 and a first build-start call that
takes 15 seconds (the data of `Periodic.test_iterations_long`, which asserts
builds at 0, 15, 25, 35), the recorded checkpoints are 0, 15, 25, 35: the
first two build-start attempts are 15 seconds apart, not 10.  So successive
attempts are not exactly `interval` seconds apart regardless of how long the
start call takes, as the claim states.  (With instantaneous builds the model
reproduces `test_iterations_simple`: 0, 13, 26 for interval 13.) -/
theorem C5_counterexample :
    periodicTicks 13 0 [0, 0] = [0, 13, 26] ∧
    periodicTicks 10 0 [15, 0, 0] = [0, 15, 25, 35] ∧
    ¬ List.Chain' (fun a b => b - a = 10) (periodicTicks 10 0 [15, 0, 0]) := by
  refine ⟨rfl, rfl, ?_⟩
  intro h
  rw [show periodicTicks 10 0 [15, 0, 0] = [0, 15, 25, 35] from rfl] at h
  rw [List.chain'_cons] at h
  obtain ⟨h1, -⟩ := h
  omega

/-- C5 (amended): successive build-start attempts are spaced
`max interval duration` seconds apart as measured between recorded
checkpoints: exactly `interval` apart whenever every start call settles
within one interval (in particular when a call fails immediately), and at
the previous call's settlement instant otherwise. -/
theorem C5_periodic_cadence (interval start : Nat) (ds : List Nat) :
    (periodicTicks interval start ds).length = ds.length + 1 ∧
    (∀ n, n < ds.length →
      (periodicTicks interval start ds).getD (n + 1) 0 =
        (periodicTicks interval start ds).getD n 0 + max interval (ds.getD n 0)) ∧
    ((∀ d ∈ ds, d ≤ interval) →
      List.Chain' (fun a b => b = a + interval) (periodicTicks interval start ds)) := by
  refine ⟨periodicTicks_length interval start ds, ?_, ?_⟩
  · intro n
    induction ds generalizing start n with
    | nil => intro hn; cases hn
    | cons d rest ih =>
      intro hn
      cases n with
      | zero =>
        show (periodicTicks interval (start + max interval d) rest).getD 0 0 =
          start + max interval d
        exact periodicTicks_getD_zero _ _ _
      | succ n' =>
        rw [List.length_cons] at hn
        show (periodicTicks interval (start + max interval d) rest).getD (n' + 1) 0 =
          (periodicTicks interval (start + max interval d) rest).getD n' 0 +
            max interval (rest.getD n' 0)
        exact ih (start + max interval d) n' (by omega)
  · induction ds generalizing start with
    | nil =>
      intro _
      exact List.chain'_singleton start
    | cons d rest ih =>
      intro hall
      have hd : d ≤ interval := hall d (List.mem_cons_self _ _)
      have hmax : max interval d = interval := Nat.max_eq_left hd
      rw [periodicTicks]
      cases hrest : rest with
      | nil =>
        rw [periodicTicks]
        exact List.chain'_pair.mpr (by omega)
      | cons d2 rest2 =>
        rw [periodicTicks]
        rw [List.chain'_cons]
        constructor
        · omega
        · rw [← periodicTicks]
          have := ih (start + max interval d)
            (fun x hx => hall x (List.mem_cons_of_mem _ (hrest ▸ hx)))
          rw [hrest] at this
          exact this

theorem C5_witness :
    (periodicTicks 13 0 [0, 0]).length = 2 + 1 ∧
    (0 < 2 ∧ (periodicTicks 13 0 [0, 0]).getD 1 0 =
      (periodicTicks 13 0 [0, 0]).getD 0 0 + max 13 0) ∧
    List.Chain' (fun a b => b = a + 13) (periodicTicks 13 0 [0, 0]) :=
  ⟨(C5_periodic_cadence 13 0 [0, 0]).1,
   ⟨by decide, (C5_periodic_cadence 13 0 [0, 0]).2.1 0 (by decide)⟩,
   (C5_periodic_cadence 13 0 [0, 0]).2.2 (by decide)⟩

theorem chunkScan_succ (cs : CalendarSpec) (m : Nat) (t : DateTime) :
    chunkScan cs (m + 1) t =
      if specMatches cs (addMinute t) then Except.error (addMinute t)
      else chunkScan cs m (addMinute t) := rfl

theorem nextMatch_succ (cs : CalendarSpec) (m : Nat) (t : DateTime) :
    nextMatch cs (m + 1) t =
      if specMatches cs (addMinute t) then some (addMinute t)
      else nextMatch cs m (addMinute t) := rfl

/-- A scan of `m + n` minutes whose first `m` minutes find no match continues
as a scan of `n` minutes from the state the first segment reached. -/
theorem nextMatch_chunk (cs : CalendarSpec) (m n : Nat) (t u : DateTime)
    (h : chunkScan cs m t = Except.ok u) :
    nextMatch cs (m + n) t = nextMatch cs n u := by
  induction m generalizing t with
  | zero =>
    have heq : t = u := by
      have h' : (Except.ok t : Except DateTime DateTime) = Except.ok u := h
      exact Except.ok.inj h'
    subst heq
    rw [Nat.zero_add]
  | succ m ih =>
    rw [chunkScan_succ] at h
    by_cases hc : specMatches cs (addMinute t)
    · rw [if_pos hc] at h
      exact absurd h (by simp)
    · rw [if_neg hc] at h
      have harith : m + 1 + n = (m + n) + 1 := by omega
      rw [harith, nextMatch_succ, if_neg hc]
      exact ih (addMinute t) h

/-- `nextMatch_chunk` with the fuel split and the reached state given
explicitly, so each can be checked by evaluation. -/
theorem nextMatch_chunk_expl (cs : CalendarSpec) (m n k : Nat) (t u : DateTime)
    (hk : m + n = k) (h : chunkScan cs m t = Except.ok u) :
    nextMatch cs k t = nextMatch cs n u := by
  subst hk
  exact nextMatch_chunk cs m n t u h

set_option maxRecDepth 100000 in
/-- C6: the calendar scheduler defaults to hourly cadence when the minute
dimension is unset, and on the spec's concrete inputs:
no fields and last 2011-01-01T03:15 gives 04:00; minute=4 from 03:00 gives
03:04; dayOfMonth=10 from Jan 9 03:00 gives Jan 10 00:00 while from
Jan 10 03:00 it still behaves hourly giving 04:00; month={4,6} from
Mar 30 03:11 gives Apr 1 00:00. -/
theorem C6_calendar_next_trigger_times :
    getNextBuildTime ⟨none, none, none, none, none⟩ ⟨2011, 1, 1, 3, 15⟩ =
      some ⟨2011, 1, 1, 4, 0⟩ ∧
    getNextBuildTime ⟨some [4], none, none, none, none⟩ ⟨2011, 1, 1, 3, 0⟩ =
      some ⟨2011, 1, 1, 3, 4⟩ ∧
    getNextBuildTime ⟨none, none, some [10], none, none⟩ ⟨2011, 1, 9, 3, 0⟩ =
      some ⟨2011, 1, 10, 0, 0⟩ ∧
    getNextBuildTime ⟨none, none, some [10], none, none⟩ ⟨2011, 1, 10, 3, 0⟩ =
      some ⟨2011, 1, 10, 4, 0⟩ ∧
    getNextBuildTime ⟨none, none, none, none, some [4, 6]⟩ ⟨2011, 3, 30, 3, 11⟩ =
      some ⟨2011, 4, 1, 0, 0⟩ := by
  refine ⟨rfl, rfl, ?_, rfl, ?_⟩
  · have h1 : nextMatch ⟨none, none, some [10], none, none⟩ 6000000 ⟨2011, 1, 9, 3, 0⟩ =
        nextMatch ⟨none, none, some [10], none, none⟩ 5999500 ⟨2011, 1, 9, 11, 20⟩ :=
      nextMatch_chunk_expl _ 500 5999500 6000000 _ _ (by norm_num) (by rfl)
    have h2 : nextMatch ⟨none, none, some [10], none, none⟩ 5999500 ⟨2011, 1, 9, 11, 20⟩ =
        nextMatch ⟨none, none, some [10], none, none⟩ 5999000 ⟨2011, 1, 9, 19, 40⟩ :=
      nextMatch_chunk_expl _ 500 5999000 5999500 _ _ (by norm_num) (by rfl)
    have h3 : nextMatch ⟨none, none, some [10], none, none⟩ 5999000 ⟨2011, 1, 9, 19, 40⟩ =
        some ⟨2011, 1, 10, 0, 0⟩ := by rfl
    exact h1.trans (h2.trans h3)
  · have h1 : nextMatch ⟨none, none, none, none, some [4, 6]⟩ 6000000 ⟨2011, 3, 30, 3, 11⟩ =
        nextMatch ⟨none, none, none, none, some [4, 6]⟩ 5999500 ⟨2011, 3, 30, 11, 31⟩ :=
      nextMatch_chunk_expl _ 500 5999500 6000000 _ _ (by norm_num) (by rfl)
    have h2 : nextMatch ⟨none, none, none, none, some [4, 6]⟩ 5999500 ⟨2011, 3, 30, 11, 31⟩ =
        nextMatch ⟨none, none, none, none, some [4, 6]⟩ 5999000 ⟨2011, 3, 30, 19, 51⟩ :=
      nextMatch_chunk_expl _ 500 5999000 5999500 _ _ (by norm_num) (by rfl)
    have h3 : nextMatch ⟨none, none, none, none, some [4, 6]⟩ 5999000 ⟨2011, 3, 30, 19, 51⟩ =
        nextMatch ⟨none, none, none, none, some [4, 6]⟩ 5998500 ⟨2011, 3, 31, 4, 11⟩ :=
      nextMatch_chunk_expl _ 500 5998500 5999000 _ _ (by norm_num) (by rfl)
    have h4 : nextMatch ⟨none, none, none, none, some [4, 6]⟩ 5998500 ⟨2011, 3, 31, 4, 11⟩ =
        nextMatch ⟨none, none, none, none, some [4, 6]⟩ 5998000 ⟨2011, 3, 31, 12, 31⟩ :=
      nextMatch_chunk_expl _ 500 5998000 5998500 _ _ (by norm_num) (by rfl)
    have h5 : nextMatch ⟨none, none, none, none, some [4, 6]⟩ 5998000 ⟨2011, 3, 31, 12, 31⟩ =
        nextMatch ⟨none, none, none, none, some [4, 6]⟩ 5997500 ⟨2011, 3, 31, 20, 51⟩ :=
      nextMatch_chunk_expl _ 500 5997500 5998000 _ _ (by norm_num) (by rfl)
    have h6 : nextMatch ⟨none, none, none, none, some [4, 6]⟩ 5997500 ⟨2011, 3, 31, 20, 51⟩ =
        some ⟨2011, 4, 1, 0, 0⟩ := by rfl
    exact h1.trans (h2.trans (h3.trans (h4.trans (h5.trans h6))))

theorem severity_le_worstOf_left (a b : BuildResult) :
    severity a ≤ severity (worstOf a b) := by
  unfold worstOf
  by_cases h : severity a < severity b
  · rw [if_pos h]
    omega
  · rw [if_neg h]

theorem severity_le_worstOf_right (a b : BuildResult) :
    severity b ≤ severity (worstOf a b) := by
  unfold worstOf
  by_cases h : severity a < severity b
  · rw [if_pos h]
  · rw [if_neg h]
    omega

theorem foldl_worstOf_success :
    ∀ (l : List TriggerTarget) (acc : BuildResult),
    (∀ tg ∈ l, tg.result = .success) →
    l.foldl (fun acc tg => worstOf acc tg.result) acc = acc
  | [], _, _ => rfl
  | tg0 :: rest, acc, hall => by
    rw [List.foldl_cons]
    rw [hall tg0 (List.mem_cons_self _ _)]
    rw [show worstOf acc .success = acc from by
      unfold worstOf
      rw [if_neg (by cases acc <;> simp [severity])]]
    exact foldl_worstOf_success rest acc
      (fun tg htg => hall tg (List.mem_cons_of_mem _ htg))

theorem foldl_worstOf_mono :
    ∀ (l : List TriggerTarget) (acc : BuildResult),
    severity acc ≤ severity (l.foldl (fun acc tg => worstOf acc tg.result) acc)
  | [], _ => Nat.le_refl _
  | tg0 :: rest, acc => by
    rw [List.foldl_cons]
    calc severity acc ≤ severity (worstOf acc tg0.result) :=
          severity_le_worstOf_left _ _
      _ ≤ _ := foldl_worstOf_mono rest _

theorem foldl_worstOf_le :
    ∀ (l : List TriggerTarget) (acc : BuildResult) (tg : TriggerTarget), tg ∈ l →
    severity tg.result ≤
      severity (l.foldl (fun acc tg => worstOf acc tg.result) acc)
  | [], _, _, htg => absurd htg (List.not_mem_nil _)
  | tg0 :: rest, acc, tg, htg => by
    rw [List.foldl_cons]
    rcases List.mem_cons.mp htg with heq | hmem
    · subst heq
      calc severity tg.result ≤ severity (worstOf acc tg.result) :=
            severity_le_worstOf_right _ _
        _ ≤ _ := foldl_worstOf_mono rest _
    · exact foldl_worstOf_le rest _ tg hmem

/-- C7: with wait-for-finish, the step's aggregate result is the worst
outcome among the important targets only — whenever every important target
succeeds the result is success no matter what the unimportant targets did,
the aggregate is at least as severe as every important outcome, and a link is
still published for every target, unimportant ones included. -/
theorem C7_wait_aggregates_important_only (targets : List TriggerTarget) :
    ((∀ tg ∈ targets, tg.important = true → tg.result = .success) →
      aggregateResult targets = .success) ∧
    (∀ tg ∈ targets, tg.important = true →
      severity tg.result ≤ severity (aggregateResult targets)) ∧
    (∀ tg ∈ targets, tg.name ∈ publishedLinks targets) := by
  refine ⟨?_, ?_, ?_⟩
  · intro hall
    unfold aggregateResult
    exact foldl_worstOf_success _ _ (fun tg htg =>
      hall tg (List.mem_of_mem_filter htg)
        (by simpa using List.of_mem_filter htg))
  · intro tg htg himp
    unfold aggregateResult
    exact foldl_worstOf_le _ _ tg (List.mem_filter.mpr ⟨htg, by simp [himp]⟩)
  · intro tg htg
    exact List.mem_map.mpr ⟨tg, htg, rfl⟩

theorem C7_witness :
    ((∀ tg ∈ [(⟨"a", true, .success⟩ : TriggerTarget), ⟨"b", false, .failure⟩],
        tg.important = true → tg.result = .success) ∧
      aggregateResult [⟨"a", true, .success⟩, ⟨"b", false, .failure⟩] = .success) ∧
    (∀ tg ∈ [(⟨"a", true, .success⟩ : TriggerTarget), ⟨"b", false, .failure⟩],
      tg.name ∈ publishedLinks [⟨"a", true, .success⟩, ⟨"b", false, .failure⟩]) :=
  ⟨⟨by decide,
    (C7_wait_aggregates_important_only
      [⟨"a", true, .success⟩, ⟨"b", false, .failure⟩]).1 (by decide)⟩,
   (C7_wait_aggregates_important_only
      [⟨"a", true, .success⟩, ⟨"b", false, .failure⟩]).2.2⟩

end Buildbot
